import Mathlib

/-!
A shallow embedding of the predicate/query compiler and index-synchronization
layer of the @norjs/nopg document store (src/src/nopg.js, src/src/NoPgParsers.js,
and the NoPgUtils / NrPgCast modules among the unnamed source files), together
with theorems settling the frozen claims about it.

Conventions of the embedding:
- JavaScript strings are Lean `String`s; every operation on them is implemented
  structurally over `String.data` so that closed terms reduce in the kernel.
- JavaScript values appearing in filter specifications, bind parameter lists
  and JSON blobs are modelled by the inductive `JVal`; `JVal.nan` stands for
  the IEEE NaN produced by a failed `parseInt`.
- Fallible code (assertion failures, `throw new TypeError`) is modelled with
  `Except String`.
- The source is an ES-module codebase mid-refactor: static methods refer to
  sibling statics by bare name (`get_predicate_datakey`, `json_cmp`, and the
  `self` left over from the pre-class refactor of `_pg_declare_index`, compare
  the older variant of the same function in the unnamed sources, which took
  `self` as its first parameter).  The embedding resolves such names to the
  sibling definitions, exactly as the pre-refactor code bound them.
- The `Predicate` class (src/Predicate.js), the `Query` class (src/query.js)
  and its `numerifyPlaceHolders` are imported by the sources but their files
  are not part of the repository snapshot; they are modelled from the spec and
  carry a `Modelled from the spec:` doc comment.
-/

namespace NoPgM

/-- Number of positional placeholder markers (the dollar character) in a SQL
fragment. -/
def countPh (s : String) : Nat := s.data.count '$'

/-- A string with no positional placeholder marker in it. -/
def dollarFree (s : String) : Bool := s.data.count '$' == 0

/-- JavaScript `String.prototype.toLowerCase` restricted to ASCII, which is all
the sources rely on. -/
def jsLowerChar (c : Char) : Char :=
  if 65 ≤ c.toNat && c.toNat ≤ 90 then Char.ofNat (c.toNat + 32) else c

/-- Lowercase a whole string. -/
def jsToLower (s : String) : String := ⟨s.data.map jsLowerChar⟩

/-- The decimal digit character for `d < 10`. -/
def dChar (d : Nat) : Char := Char.ofNat (48 + d)

/-- Decimal digits of a natural number, most significant first.  Fuel-structured
so that closed terms reduce in the kernel; `renderNat` supplies enough fuel. -/
def natCharsAux : Nat → Nat → List Char
  | 0, _ => []
  | fuel+1, n => if n < 10 then [dChar n] else natCharsAux fuel (n / 10) ++ [dChar (n % 10)]

/-- JavaScript decimal rendering of a natural number. -/
def renderNat (n : Nat) : String := ⟨natCharsAux (n+1) n⟩

/-- JavaScript decimal rendering of an integer (`'' + n`). -/
def renderInt : Int → String
  | .ofNat n => renderNat n
  | .negSucc m => "-" ++ renderNat (m+1)

/-- ASCII decimal digit test. -/
def isDigitC (c : Char) : Bool := 48 ≤ c.toNat && c.toNat ≤ 57

/-- Numeric value of a decimal digit character. -/
def digitVal (c : Char) : Nat := c.toNat - 48

/-- Value of a list of decimal digit characters, most significant first. -/
def parseDigits (cs : List Char) : Nat := cs.foldl (fun a c => 10 * a + digitVal c) 0

/-- All positions of `pat` inside `hay` (used to model `lastIndexOf`). -/
def matchPositions (hay pat : List Char) : List Nat :=
  (List.range (hay.length + 1)).filter (fun i => pat.isPrefixOf (hay.drop i))

/-- JavaScript `x.lastIndexOf(pat)`, as `none` when the result is `-1`. -/
def jsLastIndexOf (x pat : String) : Option Nat := (matchPositions x.data pat.data).getLast?

/-- JavaScript `x.indexOf(pat) !== -1`. -/
def js_contains (x pat : String) : Bool := !(matchPositions x.data pat.data).isEmpty

/-- Embeds `NoPgUtils.replace_last`: replace the last occurrence of `pat` in
`x` by `repl`, or return `x` unchanged when there is none. -/
def replace_last (x pat repl : String) : String :=
  match jsLastIndexOf x pat with
  | none => x
  | some i => ⟨x.data.take i⟩ ++ repl ++ ⟨x.data.drop (i + pat.data.length)⟩

/-- JavaScript `x.endsWith(suf)` (via `substr` comparison in the sources). -/
def jsEndsWith (x suf : String) : Bool := suf.data.isSuffixOf x.data

/-- First character of a string, when there is one (`key[0]` in JavaScript). -/
def headChar (s : String) : Option Char := s.data.head?

/-- Split a character list on a separator character, JavaScript
`String.prototype.split` with a one-character separator. -/
def splitOnCh (c : Char) : List Char → List (List Char)
  | [] => [[]]
  | x :: xs =>
      match splitOnCh c xs with
      | [] => if x = c then [[], []] else [[x]]
      | s :: rest => if x = c then [] :: s :: rest else (x :: s) :: rest

/-- JavaScript `Array.prototype.join(sep)`. -/
def joinSep (sep : String) : List String → String
  | [] => ""
  | [x] => x
  | x :: y :: rest => x ++ sep ++ joinSep sep (y :: rest)

/-- Elementwise effectful map over `Except`, stopping at the first error (the
behaviour of a JavaScript loop that may throw). -/
def mapE (f : α → Except String β) : List α → Except String (List β)
  | [] => .ok []
  | x :: xs => do
      let y ← f x
      let ys ← mapE f xs
      .ok (y :: ys)

/-- JavaScript values as they appear in filter specifications, bind parameter
lists and JSON blobs.  `nan` models the NaN produced by `parseInt` failures. -/
inductive JVal where
  | null
  | nan
  | bool (b : Bool)
  | num (n : Int)
  | str (s : String)
  | arr (l : List JVal)
  | obj (l : List (String × JVal))

/-- JSON string escaping (quotes and backslashes; the values the sources
serialize contain no control characters). -/
def jsonEscape (s : String) : String :=
  ⟨(s.data.map (fun c => if c = '"' || c = '\\' then ['\\', c] else [c])).flatten⟩

mutual

/-- `JSON.stringify` over the modelled values.  JavaScript `undefined` members
are handled at the call sites (they are omitted before an `obj` is built). -/
def JVal.stringify : JVal → String
  | .null => "null"
  | .nan => "null"
  | .bool true => "true"
  | .bool false => "false"
  | .num n => renderInt n
  | .str s => "\"" ++ jsonEscape s ++ "\""
  | .arr l => "[" ++ joinSep "," (stringifyArr l) ++ "]"
  | .obj l => "\x7b" ++ joinSep "," (stringifyObj l) ++ "\x7d"

/-- Elementwise `JSON.stringify` of an array body. -/
def stringifyArr : List JVal → List String
  | [] => []
  | v :: vs => JVal.stringify v :: stringifyArr vs

/-- Memberwise `JSON.stringify` of an object body. -/
def stringifyObj : List (String × JVal) → List String
  | [] => []
  | (k, v) :: kvs => ("\"" ++ jsonEscape k ++ "\":" ++ JVal.stringify v) :: stringifyObj kvs

end

mutual

/-- JavaScript string coercion `'' + v`. -/
def jsToString : JVal → String
  | .null => "null"
  | .nan => "NaN"
  | .bool true => "true"
  | .bool false => "false"
  | .num n => renderInt n
  | .str s => s
  | .arr l => joinSep "," (jsToStringArr l)
  | .obj _ => "[object Object]"

/-- `Array.prototype.toString` renders `null` elements as empty. -/
def jsToStringArr : List JVal → List String
  | [] => []
  | .null :: vs => "" :: jsToStringArr vs
  | v :: vs => jsToString v :: jsToStringArr vs

end

/-- JavaScript truthiness of a modelled value. -/
def jvTruthy : JVal → Bool
  | .null => false
  | .nan => false
  | .bool b => b
  | .num n => n != 0
  | .str s => s != ""
  | .arr _ => true
  | .obj _ => true

/-- JavaScript `v === true`. -/
def jvIsTrue : JVal → Bool
  | .bool true => true
  | _ => false

/-- ASCII whitespace as `parseInt` skips it. -/
def isSpaceC (c : Char) : Bool := c = ' ' || c = '\t' || c = '\n' || c = '\r'

/-- The digit-prefix result of `parseInt`: NaN when no digits were read,
otherwise the signed value. -/
def numOrNan (neg : Bool) (ds : List Char) : JVal :=
  if ds.isEmpty then .nan
  else .num (if neg then -(parseDigits ds : Int) else (parseDigits ds : Int))

/-- JavaScript `parseInt(s, 10)` on a character list: skip whitespace, read an
optional sign and a decimal digit prefix; no digits mean NaN. -/
def parseIntChars (cs0 : List Char) : JVal :=
  match cs0.dropWhile isSpaceC with
  | [] => .nan
  | c :: rest =>
      if c = '-' then numOrNan true (rest.takeWhile isDigitC)
      else if c = '+' then numOrNan false (rest.takeWhile isDigitC)
      else numOrNan false ((c :: rest).takeWhile isDigitC)

/-- JavaScript `parseInt(v, 10)` after string coercion. -/
def parseIntJs (v : JVal) : JVal := parseIntChars (jsToString v).data

end NoPgM

namespace NoPgM

/-- Modelled from the spec: the `Predicate` class of src/Predicate.js, which is
imported by the sources but missing from the repository snapshot (spec §2, §3,
§4.1): an immutable SQL fragment, its ordered bind values, and meta data
(source key and data-container name, read back through `getMeta`). -/
structure Predicate where
  text : String
  params : List JVal := []
  mdatakey : Option String := none
  mkey : Option String := none

/-- `predicate.getMeta(name)` over the two meta entries the sources store. -/
def Predicate.getMeta (p : Predicate) (name : String) : Option String :=
  if name = "datakey" then p.mdatakey
  else if name = "key" then p.mkey
  else none

/-- `predicate.getString()`. -/
def Predicate.getString (p : Predicate) : String := p.text

/-- `predicate.getParams()`. -/
def Predicate.getParams (p : Predicate) : List JVal := p.params

/-- Modelled from the spec: `Predicate.join` (§4.1) combines N predicates with
an operator, wrapping each operand in parentheses, concatenating the parameter
lists in operand order; `join([])` returns the empty/neutral predicate and a
single operand is returned as is. -/
def Predicate.join : List Predicate → String → Predicate
  | [], _ => { text := "", params := [] }
  | [p], _ => p
  | ps, op =>
      { text := "(" ++ joinSep (") " ++ op ++ " (") (ps.map (·.text)) ++ ")",
        params := (ps.map (·.params)).flatten }

/-- Left-to-right renumbering pass: the k-th placeholder marker becomes the
numbered placeholder `$k`. -/
def numerifyAux : List Char → Nat → List Char
  | [], _ => []
  | c :: cs, k =>
      if c = '$' then '$' :: (renderNat k).data ++ numerifyAux cs (k+1)
      else c :: numerifyAux cs k

/-- Modelled from the spec: `Query.numerifyPlaceHolders` of src/query.js
(missing from the repository snapshot): number the positional placeholders of a
compiled statement contiguously `1..N` from left to right (§3, §4.5). -/
def numerifyPlaceHolders (s : String) : String := ⟨numerifyAux s.data 1⟩

/-- The segments of a fragment between its placeholder markers (N markers give
N+1 segments, none of which contains a marker). -/
def splitDollar : List Char → List (List Char)
  | [] => [[]]
  | c :: cs =>
      match splitDollar cs with
      | [] => [[c]]
      | s :: rest => if c = '$' then [] :: s :: rest else (c :: s) :: rest

/-- Rebuild a fragment from its segments, numbering the markers `k, k+1, ...`
left to right: the normal form of a finally-compiled statement text. -/
def rebuildNumbered : List (List Char) → Nat → List Char
  | [], _ => []
  | [s], _ => s
  | s :: t :: rest, k => s ++ '$' :: (renderNat k).data ++ rebuildNumbered (t :: rest) (k+1)

/-- The `meta` record of an entity class (src/src/orm/meta.js): table name,
data-container key and the mapped keys. -/
structure ObjTypeMeta where
  table : String
  datakey : String
  keys : List String

/-- An entity class (`ObjType` in the sources): its meta record, and whether it
is `NoPg.Document` (the sources compare `ObjType === NoPg.Document`). -/
structure ObjTypeT where
  meta : ObjTypeMeta
  isDocument : Bool

/-- `NoPg.Document` as configured in the Document ORM module: table
`documents`, data container `$content` and its mapped keys. -/
def NoPgDocument : ObjTypeT :=
  { meta := { table := "documents", datakey := "$content",
              keys := ["$id", "$type", "$content", "$types_id", "$created", "$modified", "$documents"] },
    isDocument := true }

/-- A `NoPg.Type` entity row as the select pipeline consumes it: its id, the
declared field kinds of `$schema.properties` (a field maps to the string of its
`type` member) and the optional `documents` relation list. -/
structure TypeEntity where
  id : String := ""
  schemaProps : Option (List (String × String)) := none
  documents : Option (List String) := none

/-- A trait value that may be a single string or an array of strings before
normalization. -/
inductive StrOrList where
  | one (s : String)
  | many (l : List String)

/-- The traits object of a search call, with exactly the members
`parse_search_traits` and the select pipeline read; `none` is an absent
member. -/
structure Traits where
  fields : Option StrOrList := none
  order : Option StrOrList := none
  group : Option StrOrList := none
  limit : Option JVal := none
  offset : Option JVal := none
  prepareOnly : Option JVal := none
  typeAwareness : Option JVal := none
  documents : Option (List String) := none
  matchT : Option String := none
  count : Option JVal := none

/-- A filter specification: `undefined`, a scalar, a function value (as its
source text), an equality map or a nested array (spec §6 grammar). -/
inductive FSpec where
  | undef
  | scalar (v : JVal)
  | func (src : String)
  | map (l : List (String × JVal))
  | arr (l : List FSpec)

mutual

/-- JavaScript string coercion of a filter-specification node (`'' + o`), used
by `is_operator` on the head of an array and by the scalar predicate case. -/
def specToString : FSpec → String
  | .undef => "undefined"
  | .scalar v => jsToString v
  | .func s => s
  | .map _ => "[object Object]"
  | .arr l => joinSep "," (specToStringArr l)
termination_by structural s => s

/-- Array coercion joins element coercions with commas (`undefined` and `null`
render empty). -/
def specToStringArr : List FSpec → List String
  | [] => []
  | .undef :: xs => "" :: specToStringArr xs
  | .scalar .null :: xs => "" :: specToStringArr xs
  | x :: xs => specToString x :: specToStringArr xs
termination_by structural l => l

end

mutual

/-- A specification node as the JavaScript value `JSON.stringify` sees when the
node is serialized as a literal call argument (functions serialize to null
inside arrays). -/
def specToJVal : FSpec → JVal
  | .undef => .null
  | .scalar v => v
  | .func _ => .null
  | .map l => .obj l
  | .arr l => .arr (specToJValArr l)
termination_by structural s => s

/-- Elementwise value view of a specification array. -/
def specToJValArr : List FSpec → List JVal
  | [] => []
  | x :: xs => specToJVal x :: specToJValArr xs
termination_by structural l => l

end

end NoPgM

namespace NoPgM

/-- Embeds `NoPgUtils.get_predicate_datakey`: the data key of a type without
its marker (`(Type.meta.datakey || '$meta').substr(1)`). -/
def get_predicate_datakey (T : ObjTypeT) : String :=
  (if T.meta.datakey = "" then "$meta" else T.meta.datakey).drop 1

/-- Embeds `NoPgUtils.parse_keyref_json`: the JSON-navigation expression for a
key inside the data container (`->` single level, `#>` for dotted paths). -/
def parse_keyref_json (datakey key : String) : String :=
  if key.data.all (· ≠ '.') then
    "(" ++ datakey ++ " -> '" ++ key ++ "'::text)"
  else
    "(" ++ datakey ++ " #> '\x7b" ++ joinSep "," ((splitOnCh '.' key.data).map (⟨·⟩)) ++ "\x7d')"

/-- Embeds `NoPgUtils.parse_keyref_text`: the text-returning JSON navigation
(`->>` single level, `#>>` for dotted paths). -/
def parse_keyref_text (datakey key : String) : String :=
  if key.data.all (· ≠ '.') then
    "(" ++ datakey ++ " ->> '" ++ key ++ "'::text)"
  else
    "(" ++ datakey ++ " #>> '\x7b" ++ joinSep "," ((splitOnCh '.' key.data).map (⟨·⟩)) ++ "\x7d')"

/-- Embeds `NoPgUtils.parse_operator_name`: the text before the first colon. -/
def parse_operator_name (op : String) : String := ⟨op.data.takeWhile (· ≠ ':')⟩

/-- Embeds `NoPgUtils.parse_operator_type`: the text between the first and
second colon, or the default (`'boolean'` when the default itself is empty or
absent, which the sources write as `def || 'boolean'`). -/
def parse_operator_type (op : String) (dflt : String) : String :=
  if op.data.all (· ≠ ':') then (if dflt = "" then "boolean" else dflt)
  else ⟨((op.data.dropWhile (· ≠ ':')).drop 1).takeWhile (· ≠ ':')⟩

/-- Embeds `NoPgUtils.is_operator`: true when the operator name is AND, OR or
BIND (a cast suffix after a colon is allowed). -/
def is_operator (op : String) : Bool :=
  parse_operator_name op = "AND" || parse_operator_name op = "OR" ||
    parse_operator_name op = "BIND"

/-- Embeds `NoPgUtils.is_valid_key`: the keyword character class
`[a-zA-Z0-9_\-.]+`. -/
def is_valid_key (key : String) : Bool :=
  key.data ≠ [] && key.data.all (fun c =>
    ('a' ≤ c && c ≤ 'z') || ('A' ≤ c && c ≤ 'Z') || ('0' ≤ c && c ≤ '9') ||
      c = '_' || c = '-' || c = '.')

/-- Embeds `NoPgUtils.parse_meta_properties`: one entry of the equality map for
a plain (data-container) key, with the value-driven cast of the source: boolean
values compare through `::boolean IS TRUE`, numbers through `::numeric`, and
anything else as coerced text. -/
def parse_meta_properties (datakey key : String) (v : JVal) : Except String (String × JVal) :=
  if !is_valid_key key then .error ("Invalid keyword: " ++ key)
  else
    let keyref := parse_keyref_text datakey key
    match v with
    | .bool b => .ok ("((" ++ keyref ++ ")::boolean IS TRUE)", .str (if b then "true" else "false"))
    | .num n => .ok ("(" ++ keyref ++ ")::numeric", .num n)
    | .nan => .ok ("(" ++ keyref ++ ")::numeric", .nan)
    | w => .ok (keyref, .str (jsToString w))

/-- Embeds `NoPgUtils.parse_top_level_properties`: a `$column` key maps to the
bare column name. -/
def parse_top_level_properties (key : String) (v : JVal) : String × JVal :=
  (key.drop 1, v)

/-- Embeds `NoPgUtils.parse_predicates(Type)`: resolve every entry of an
equality map, keeping entry order. -/
def parse_predicates (T : ObjTypeT) (opts : List (String × JVal)) :
    Except String (List (String × JVal)) :=
  let datakey := get_predicate_datakey T
  mapE (fun kv =>
    if headChar kv.1 = some '$' then .ok (parse_top_level_properties kv.1 kv.2)
    else parse_meta_properties datakey kv.1 kv.2) opts

/-- A concrete type discriminator as `parse_where_type_condition` receives it:
a type name, a `NoPg.Type` entity, or a list of discriminators. -/
inductive TypeDisc where
  | name (s : String)
  | ent (t : TypeEntity)
  | listD (l : List TypeDisc)

/-- Embeds `NoPgUtils.parse_where_type_condition_array`: each string element
contributes a `type` condition; for any other element the source tests
`type instanceof NoPg.Type` on the *array* itself, which is never a type
entity, so such an element is rejected.  The conditions are OR-joined. -/
def parse_where_type_condition_array (l : List TypeDisc) : Except String Predicate := do
  let ps ← mapE (fun td =>
    (match td with
     | .name s => .ok { text := "type = $", params := [.str s] }
     | _ => .error "Unknown type" : Except String Predicate)) l
  .ok (Predicate.join ps "OR")

/-- Embeds `NoPgUtils.parse_where_type_condition`: the discriminator conditions
added to the query (`none` adds nothing). -/
def parse_where_type_condition (t : Option TypeDisc) : Except String (Option Predicate) :=
  match t with
  | none => .ok none
  | some (.listD l) => (parse_where_type_condition_array l).map some
  | some (.name s) => .ok (some { text := "type = $", params := [.str s] })
  | some (.ent te) => .ok (some { text := "types_id = $", params := [.str te.id] })

/-- Embeds `NoPgUtils.parse_predicate_pgtype`: the relational kind of a key.
Reserved table columns resolve through an explicit whitelist, every other
`$`-key falls through to `text`; plain fields consult the declared schema
entry of the document type. -/
def parse_predicate_pgtype (T : ObjTypeT) (document_type : Option TypeEntity)
    (key : String) : String :=
  let props := (document_type.bind (·.schemaProps)).getD []
  if headChar key = some '$' then
    if key = "$version" || key = "$created" || key = "$modified" || key = "$name" ||
        key = "$type" || key = "$validator" || key = "$id" || key = "$types_id" ||
        key = "$documents_id" then "direct"
    else "text"
  else
    match props.lookup key with
    | some t =>
        if t = "" then "text"
        else if t = "number" then "numeric"
        else if t = "boolean" then "boolean"
        else "text"
    | none => "text"

/-- Embeds `NrPgCast.castDirect`. -/
def castDirect (x : String) : String := x

/-- Embeds `NrPgCast.castBoolean`: collapse through a text intermediate. -/
def castBoolean (x : String) : String := "(((" ++ x ++ ")::text)::boolean IS TRUE)"

/-- Embeds `NrPgCast.castNumeric`: collapse through a text intermediate. -/
def castNumeric (x : String) : String := "((" ++ x ++ ")::text)::numeric"

/-- Embeds `NrPgCast.castText`: rewrite the last JSON-child operator to its
text-returning counterpart, avoid a redundant `::text`, else append one. -/
def castText (x : String) : String :=
  if js_contains x " -> " then replace_last x " -> " " ->> "
  else if js_contains x " #> " then replace_last x " #> " " #>> "
  else if jsEndsWith x "::text" then x
  else if jsEndsWith x "::text)" then x
  else x ++ "::text"

/-- Embeds `NoPgUtils.parse_predicate_pgcast_by_type` together with the
`PG_CASTS` table: the cast wrapper for a relational kind; an unknown kind
appends `::<kind>` directly. -/
def parse_predicate_pgcast_by_type (pgtype : String) (x : String) : String :=
  if pgtype = "direct" then castDirect x
  else if pgtype = "boolean" then castBoolean x
  else if pgtype = "numeric" then castNumeric x
  else if pgtype = "text" then castText x
  else x ++ "::" ++ pgtype

/-- Embeds `NoPgUtils.parse_predicate_pgcast`. -/
def parse_predicate_pgcast (T : ObjTypeT) (document_type : Option TypeEntity)
    (key : String) : String → String :=
  parse_predicate_pgcast_by_type (parse_predicate_pgtype T document_type key)

/-- The option object of `parse_predicate_key` (`{'traits': ..., 'epoch': ...}`
in the sources). -/
structure PPKOpts where
  epoch : Bool := false
  traits : Traits := {}

/-- JavaScript `s.indexOf(c)` for one character, `-1` as `none`. -/
def jsIndexOfCh (s : String) (c : Char) : Option Nat := s.data.findIdx? (· = c)

mutual

/-- Embeds `NoPgUtils.parse_predicate_key`: resolve a NoPg keyword to its SQL
fragment.  A plain key navigates into the data container; `$created`/`$modified`
under the epoch option render as epoch milliseconds; `$documents` emits the
relation-fetch call with its JSON specification blob as the single parameter;
any other `$`-key is the bare column.  The `fuel` argument bounds the mutual
recursion through the `$documents` relation specification, which in the source
does not terminate when a relation field list names `$documents` again. -/
def parse_predicate_key (fuel : Nat) (T : ObjTypeT) (opts : PPKOpts) (key : String) :
    Predicate :=
  if headChar key ≠ some '$' then
    let datakey := get_predicate_datakey T
    { text := parse_keyref_json datakey key, params := [],
      mdatakey := some datakey, mkey := some key }
  else
    let k := key.drop 1
    if opts.epoch && (key = "$created" || key = "$modified") then
      { text := "extract(epoch from " ++ k ++ ")*1000", mkey := some k }
    else if key = "$documents" then
      let documents := opts.traits.documents.getD []
      { text := "get_documents(row_to_json(" ++ T.meta.table ++ ".*), $::json)",
        params := [.str (match fuel with
          | 0 => "DIVERGED"
          | fuel'+1 => JVal.stringify (.arr (parse_predicate_document_relations fuel' T documents opts.traits)))],
        mkey := some k }
    else
      { text := k, mkey := some k }
termination_by structural fuel

/-- Embeds `NoPgUtils.parse_predicate_document_relations`: parse each relation
expression `[Type#]property[{...}]|field1,field2` into its `{type, prop,
fields}` JSON value, resolving field names through `parse_predicate_key`
(JavaScript object members that are `undefined` are omitted, as
`JSON.stringify` would omit them). -/
def parse_predicate_document_relations (fuel : Nat) (T : ObjTypeT)
    (documents : List String) (traits : Traits) : List JVal :=
  documents.map (fun d =>
    let parts := (splitOnCh '|' d.data).map (⟨·⟩ : List Char → String)
    let expression := parts.headD ""
    let fields0 := joinSep "|" parts.tail
    let fields1 := if fields0 = "" then "*" else fields0
    let external_index := jsIndexOfCh expression '\x7b'
    let type_index := jsIndexOfCh expression '#'
    let tprop : Option String × String :=
      match type_index, external_index with
      | some ti, some ei =>
          if ti < ei then (some (⟨expression.data.take ti⟩), ⟨expression.data.drop (ti+1)⟩)
          else (none, expression)
      | some ti, none => (some (⟨expression.data.take ti⟩), ⟨expression.data.drop (ti+1)⟩)
      | none, _ => (none, expression)
    let fields := ((splitOnCh ',' fields1.data).map (⟨·⟩ : List Char → String)).map (fun f =>
      if f = "*" then JVal.obj [("query", .str "*")]
      else
        match fuel with
        | 0 => JVal.obj [("query", .str "DIVERGED")]
        | fuel'+1 =>
            let p := parse_predicate_key fuel' T { epoch := false, traits := traits } f
            JVal.obj ([("name", JVal.str f)]
              ++ (match p.getMeta "datakey" with
                  | some dk => [("datakey", JVal.str dk)]
                  | none => [])
              ++ (match p.getMeta "key" with
                  | some mk => [("key", JVal.str mk)]
                  | none => [])
              ++ [("query", JVal.str p.getString)]))
    let prop := tprop.2
    let typeMember : List (String × JVal) :=
      match tprop.1 with
      | some tn => [("type", .str tn)]
      | none => []
    if headChar prop = some '$' then
      JVal.obj (typeMember ++ [("prop", .str (prop.drop 1)), ("fields", .arr fields)])
    else
      JVal.obj (typeMember ++ [("prop", .str (get_predicate_datakey T ++ "." ++ prop)), ("fields", .arr fields)]))
termination_by structural fuel

end

/-- The fuel every call site of `parse_predicate_key` uses: deep enough for any
non-diverging input the pipeline can build. -/
def fuelD : Nat := 64

end NoPgM

namespace NoPgM

/-- True for a function node of a specification array (`is.func`). -/
def isFuncSpec : FSpec → Bool
  | .func _ => true
  | _ => false

/-- Embeds `NoPgUtils.parse_function_predicate` (the BIND rule): the elements
before the first function node are field-path tokens resolved with the epoch
option enabled, the elements after it are literal call arguments.  The
parameter lists of the resolved fields are concatenated by an initial-less
`reduce`, which in JavaScript throws on an empty array; then the serialized
function source and the serialized argument list are appended, and the call
expression is cast to the requested return type (empty/absent means
`boolean`). -/
def parse_function_predicate (T : ObjTypeT) (o : List FSpec) (ret_type0 : String)
    (traits : Traits) : Except String Predicate := do
  let ret_type := if ret_type0 = "" then "boolean" else ret_type0
  let i ← match o.findIdx? isFuncSpec with
    | none => .error "AssertUtils.isFunction"
    | some i => .ok i
  let funcSrc := match o[i]? with
    | some (.func s) => s
    | _ => ""
  let input_nopg_keys := o.take i
  let js_input_params := o.drop (i+1)
  let keyStrs ← mapE (fun sp =>
    (match sp with
     | .scalar (.str k) => .ok k
     | _ => .error "AssertUtils.isString" : Except String String)) input_nopg_keys
  let input_pg_keys := keyStrs.map (parse_predicate_key fuelD T { epoch := true, traits := traits })
  let pg_items := input_pg_keys.map (·.getString)
  let pg_params ← match input_pg_keys.map (·.getParams) with
    | [] => .error "Reduce of empty array with no initial value"
    | x :: xs => .ok (xs.foldl (· ++ ·) x)
  let call_func := "nopg.call_func(array_to_json(ARRAY[" ++ joinSep ", " pg_items ++ "]), $::json, $::json)"
  .ok { text := parse_predicate_pgcast_by_type ret_type call_func,
        params := pg_params ++ [.str (JVal.stringify (.str funcSrc)),
                                .str (JVal.stringify (.arr (js_input_params.map specToJVal)))] }

/-- Embeds `NoPgUtils.has_property_names`: some element is truthy and does not
start with the column marker. -/
def has_property_names (a : List String) : Bool :=
  a.any (fun k => k ≠ "" && headChar k ≠ some '$')

/-- The list view of a normalized string-or-list trait member. -/
def strOrListToList : Option StrOrList → List String
  | none => []
  | some (.one s) => [s]
  | some (.many l) => l

/-- The fields default/wrap step of `NoPgUtils.parse_search_traits`. -/
def fieldsStep (f : Option StrOrList) : List String :=
  match f with
  | none => ["$*"]
  | some (.one s) => if s = "" then ["$*"] else [s]
  | some (.many l) => l

/-- The order default/wrap step of `parse_search_traits`. -/
def orderStep (o : Option StrOrList) : List String :=
  match o with
  | none => ["$created"]
  | some (.one s) => if s = "" then ["$created"] else [s]
  | some (.many l) => l

/-- The group wrap step of `parse_search_traits`. -/
def groupStep (g : Option StrOrList) : Option (List String) :=
  match g with
  | none => none
  | some (.one s) => some [s]
  | some (.many l) => some l

/-- The limit normalization of `parse_search_traits`: a truthy limit becomes
`'ALL'` or the string of its parsed integer. -/
def limitNorm (v : JVal) : JVal :=
  if jvTruthy v then
    .str (if jsToLower (jsToString v) = "all" then "ALL" else jsToString (parseIntJs v))
  else v

/-- The offset normalization of `parse_search_traits`: a truthy offset is
parsed to an integer. -/
def offsetNorm (v : JVal) : JVal :=
  if jvTruthy v then parseIntJs v else v

/-- The type-awareness default of `parse_search_traits`. -/
def taStep (dflt_ta : Bool) (v : Option JVal) : Bool :=
  match v with
  | none => dflt_ta
  | some w => jvIsTrue w

/-- The `$documents` field append of `parse_search_traits`. -/
def docFields (cond : Bool) (l : List String) : List String :=
  if cond && !(l.contains "$documents") then l ++ ["$documents"] else l

/-- Embeds `NoPgUtils.parse_search_traits`: normalize the traits object in
place — default field list `['$*']`, default order `['$created']`, wrap scalar
members into arrays, parse `limit`/`offset`, booleanize `prepareOnly` and
`typeAwareness` (defaulting the latter from the NoPg defaults, passed here as
`dflt_ta`), append `$documents` to the fields when documents or type awareness
are in play, and let the `count` trait force the field list and delete the
order. The preceding step functions are the named pieces of the source's
in-place normalization. -/
def parse_search_traits (dflt_ta : Bool) (t : Traits) : Traits :=
  let fields1 := fieldsStep t.fields
  let order1 := orderStep t.order
  let group1 := groupStep t.group
  let limit1 := t.limit.map limitNorm
  let offset1 := t.offset.map offsetNorm
  let prepareOnly1 := t.prepareOnly.map (fun v => JVal.bool (jvIsTrue v))
  let taB := taStep dflt_ta t.typeAwareness
  let fields2 := docFields (t.documents.isSome || taB) fields1
  match t.count with
  | none =>
      { fields := some (.many fields2), order := some (.many order1),
        group := group1.map .many, limit := limit1, offset := offset1,
        prepareOnly := prepareOnly1, typeAwareness := some (.bool taB),
        documents := t.documents, matchT := t.matchT, count := none }
  | some c =>
      { fields := some (.many ["count"]), order := none,
        group := group1.map .many, limit := limit1, offset := offset1,
        prepareOnly := prepareOnly1, typeAwareness := some (.bool taB),
        documents := t.documents, matchT := t.matchT,
        count := some (.bool (jvIsTrue c)) }

/-- Embeds `NoPgUtils.parse_select_fields`: resolve every field of the
normalized traits with the epoch option disabled. -/
def parse_select_fields (T : ObjTypeT) (traits : Traits) : List Predicate :=
  (strOrListToList traits.fields).map (fun f =>
    parse_predicate_key fuelD T { epoch := false, traits := traits } f)

/-- The default operator the `match` trait selects (`'any'` means OR). -/
def matchOp (traits : Traits) : String :=
  if traits.matchT = some "any" then "OR" else "AND"

/-- Embeds `NoPgUtils.parse_search_opts`: wrap the search options into the
canonical array form, prepending the match-trait operator when the options are
a map, a function value, or an array whose first element is a map; a scalar
becomes a `$name` equality. -/
def parse_search_opts (opts : FSpec) (traits : Traits) : Option FSpec :=
  match opts with
  | .undef => none
  | .arr l =>
      if l.length ≥ 1 && (match l.head? with | some (.map _) => true | _ => false) then
        some (.arr (.scalar (.str (matchOp traits)) :: l))
      else some (.arr l)
  | .map m => some (.arr [.scalar (.str (matchOp traits)), .map m])
  | .func s => some (.arr [.scalar (.str (matchOp traits)), .func s])
  | .scalar v => some (.arr [.scalar (.str "AND"), .map [("$name", .str (jsToString v))]])

/-- Embeds `NoPgUtils.parse_select_order` for string order keys: split the key
from its cast suffix, resolve it with the epoch option enabled and wrap it in
the type-aware cast; a BIND key goes through the function predicate with no
operand. -/
def parse_select_order (T : ObjTypeT) (document_type : Option TypeEntity)
    (order : List String) (traits : Traits) : Except String (List Predicate) :=
  mapE (fun o =>
    let key := parse_operator_name o
    let ty := parse_operator_type o "text"
    if key = "BIND" then parse_function_predicate T [] ty traits
    else
      let parsed_key := parse_predicate_key fuelD T { epoch := true, traits := traits } key
      let pgcast := parse_predicate_pgcast T document_type key
      .ok { text := pgcast parsed_key.getString, params := parsed_key.getParams,
            mdatakey := parsed_key.mdatakey, mkey := parsed_key.mkey }) order

/-- Embeds `NoPgUtils.json_cmp`: deep comparison through `JSON.stringify`
(`none` is JavaScript `undefined`, which stringifies to `undefined` itself,
so two absent values compare equal). -/
def json_cmp (a b : Option JVal) : Bool :=
  (a.map JVal.stringify) == (b.map JVal.stringify)

/-- Embeds `NoPgUtils.pg_convert_index_name`: lowercase, then collapse every
maximal run of characters outside `[a-z0-9]` into one underscore.  The flag
records whether the previous character was part of such a run. -/
def collapseNonAlnum : List Char → Bool → List Char
  | [], _ => []
  | c :: cs, inRun =>
      if ('a' ≤ c && c ≤ 'z') || ('0' ≤ c && c ≤ '9') then c :: collapseNonAlnum cs false
      else if inRun then collapseNonAlnum cs true
      else '_' :: collapseNonAlnum cs true

/-- Embeds `NoPgUtils.pg_convert_index_name`. -/
def pg_convert_index_name (field : String) : String :=
  ⟨collapseNonAlnum (jsToLower field).data false⟩

/-- Embeds `NoPgUtils.pg_create_index_name`: the canonical index name from the
table name, the optional discriminator column and the slug of the resolved
field name.  The source reads the meta entry `dataKey` (capital K) although
`parse_predicate_key` stores `datakey`, so the data-key prefix is always
absent, exactly as in the source. -/
def pg_create_index_name (T : ObjTypeT) (dt : Option TypeEntity) (field : String)
    (typefield : Option String) : Except String String :=
  let colName := parse_predicate_key fuelD T { epoch := false } field
  let dataKey := colName.getMeta "dataKey"
  let field_name := (match dataKey with | some dk => dk ++ "." | none => "")
    ++ (colName.getMeta "key").getD "undefined"
  if T.isDocument && typefield.isSome then
    match typefield with
    | some "" => .error "No typefield set for NoPg.Document!"
    | some tf =>
        .ok (pg_convert_index_name T.meta.table ++ "_" ++ tf ++ "_"
          ++ pg_convert_index_name field_name ++ "_index")
    | none => .error "unreachable"
  else
    .ok (pg_convert_index_name T.meta.table ++ "_" ++ pg_convert_index_name field_name ++ "_index")

/-- Embeds `NoPgUtils.wrap_casts`: parenthesize a cast expression, doubling the
parentheses for a text-rewritten JSON child at the top level. -/
def wrap_casts (x : String) : String :=
  if x.data.head? = some '(' && x.data.getLast? = some ')' && decide (x.data.length ≥ 3) then
    "(" ++ x ++ ")"
  else
    let rev := x.data.reverse
    let letters := rev.takeWhile (fun c => 'a' ≤ c && c ≤ 'z')
    if letters ≠ [] && (rev.drop letters.length).take 2 = [':', ':'] then
      let leading := x.data.takeWhile (fun c => 'a' ≤ c && c ≤ 'z')
      if leading ≠ [] && " ->> ".data.isPrefixOf (x.data.drop leading.length) then
        "((" ++ x ++ "))"
      else "(" ++ x ++ ")"
    else x

/-- Embeds `NoPgUtils.pg_create_index_query_internal_v1` (unqualified table)
and `_v2` (schema-qualified table), selected by `v2`. -/
def pg_create_index_query_internal (v2 : Bool) (T : ObjTypeT) (dt : Option TypeEntity)
    (field : String) (typefield : Option String) (is_unique : Bool) :
    Except String String := do
  let pgcast := parse_predicate_pgcast T dt field
  let colname := parse_predicate_key fuelD T { epoch := false } field
  let name ← pg_create_index_name T dt field typefield
  let q := "CREATE " ++ (if is_unique then "UNIQUE " else "") ++ "INDEX " ++ name
    ++ " ON " ++ (if v2 then "public." else "") ++ T.meta.table ++ " USING btree "
  if T.isDocument && typefield.isSome then
    match typefield with
    | some "" => .error "No typefield set for NoPg.Document!"
    | some tf => .ok (q ++ "(" ++ tf ++ ", " ++ wrap_casts (pgcast colname.getString) ++ ")")
    | none => .error "unreachable"
  else
    .ok (q ++ "(" ++ wrap_casts (pgcast colname.getString) ++ ")")

/-- Embeds `NoPgUtils.pg_create_index_query_v1`: the unqualified canonical DDL
text, refused when the resolved field carries parameters. -/
def pg_create_index_query_v1 (T : ObjTypeT) (dt : Option TypeEntity) (field : String)
    (typefield : Option String) (is_unique : Bool) : Except String String := do
  let colname := parse_predicate_key fuelD T { epoch := false } field
  let query ← pg_create_index_query_internal false T dt field typefield is_unique
  if colname.getParams.length ≠ 0 then
    .error "pg_create_index_query_v1() does not support params!"
  else .ok query

/-- Embeds `NoPgUtils.pg_create_index_query_v2`: the schema-qualified canonical
DDL text, refused when the resolved field carries parameters. -/
def pg_create_index_query_v2 (T : ObjTypeT) (dt : Option TypeEntity) (field : String)
    (typefield : Option String) (is_unique : Bool) : Except String String := do
  let colname := parse_predicate_key fuelD T { epoch := false } field
  let query ← pg_create_index_query_internal true T dt field typefield is_unique
  if colname.getParams.length ≠ 0 then
    .error "pg_create_index_query_v2() does not support params!"
  else .ok query

end NoPgM

namespace NoPgM

mutual

/-- Embeds `NoPgParsers.recursive_parse_predicates`: `undefined` compiles to
nothing; an array goes through the array rule; an object becomes the equality
map joined with the caller's default operator (a function value, being an
object with no enumerable keys, becomes the neutral join of no predicates); any
other value is a raw fragment with no parameters. -/
def recursive_parse_predicates (T : ObjTypeT) (def_op : String) (traits : Traits) :
    FSpec → Except String (Option Predicate)
  | .undef => .ok none
  | .arr l => parse_array_predicate T def_op traits l
  | .map m => do
      let res ← parse_predicates T m
      let ps := res.map (fun kv => ({ text := kv.1 ++ " = $", params := [kv.2] } : Predicate))
      .ok (some (Predicate.join ps def_op))
  | .func _ => .ok (some (Predicate.join [] def_op))
  | .scalar v => .ok (some { text := jsToString v, params := [] })
termination_by structural s => s

/-- Embeds `NoPgParsers.parse_array_predicate`: shift a leading operator token
(default `AND`); a BIND operator routes the remaining elements through the
function-predicate rule with its cast suffix; otherwise every remaining element
is compiled recursively, elements that compile to nothing are dropped, and the
rest are joined with the operator token as it was written. -/
def parse_array_predicate (T : ObjTypeT) (def_op : String) (traits : Traits) :
    List FSpec → Except String (Option Predicate)
  | [] => .ok (some (Predicate.join [] "AND"))
  | x :: xs =>
      if is_operator (specToString x) then
        let op := specToString x
        if parse_operator_name op = "BIND" then
          (parse_function_predicate T xs (parse_operator_type op "") traits).map some
        else do
          let elems ← rppList T def_op traits xs
          .ok (some (Predicate.join (elems.filterMap id) op))
      else do
        let p ← recursive_parse_predicates T def_op traits x
        let ps ← rppList T def_op traits xs
        .ok (some (Predicate.join ((p :: ps).filterMap id) "AND"))
termination_by structural l => l

/-- Elementwise recursive compilation of the operand list. -/
def rppList (T : ObjTypeT) (def_op : String) (traits : Traits) :
    List FSpec → Except String (List (Option Predicate))
  | [] => .ok []
  | x :: xs => do
      let p ← recursive_parse_predicates T def_op traits x
      let ps ← rppList T def_op traits xs
      .ok (p :: ps)
termination_by structural l => l

end

/-- The update statement or the fallback re-select that `_doUpdate` decides
on. -/
inductive UpdateAction where
  | select (w : List (String × JVal))
  | update (text : String) (params : List JVal)

/-- The update key list of `_doUpdate` (src/src/nopg.js): the `$`-keys of the
entity type, stripped, kept when the patched data has the key and its value is
not `json_cmp`-equal to the original value. -/
def updateKeys (T : ObjTypeT) (data obj : List (String × JVal)) : List String :=
  (((T.meta.keys.filter (fun k => headChar k = some '$')).map (fun k => k.drop 1)).filter
      (fun k => (data.lookup k).isSome)).filter
    (fun k => !json_cmp (data.lookup k) (obj.lookup ("$" ++ k)))

/-- Embeds `NoPg._doUpdate` on an original entity `obj` (its keys still
`$`-prefixed) and the patched value set `data` (the unresolved merge of the
original and the patch): decide the identifying key, compute the update key
list, and either emit the `UPDATE ... RETURNING *` statement or fall back to a
re-select of the current state. -/
def _doUpdate (T : ObjTypeT) (obj data : List (String × JVal)) :
    Except String UpdateAction := do
  let w : List (String × JVal) ←
    if (obj.lookup "$id").elim false jvTruthy then
      .ok [("$id", ((obj.lookup "$id").getD .null))]
    else if (obj.lookup "$name").elim false jvTruthy then
      .ok [("$name", ((obj.lookup "$name").getD .null))]
    else .error "Cannot know what to update!"
  let keys := updateKeys T data obj
  if keys.length = 0 then
    .ok (.select w)
  else
    let setPart := joinSep ", " (keys.mapIdx (fun i k => k ++ " = $" ++ renderNat (i + 1)))
    let wherePart :=
      if (obj.lookup "$id").elim false jvTruthy then "id = $" ++ renderNat (keys.length + 1)
      else "name = $" ++ renderNat (keys.length + 1)
    let query := "UPDATE " ++ T.meta.table ++ " SET " ++ setPart ++ " WHERE "
      ++ wherePart ++ " RETURNING *"
    let params := keys.map (fun k => (data.lookup k).getD .null)
      ++ [(w.headD ("", .null)).2]
    .ok (.update query params)

end NoPgM

namespace NoPgM

/-- A DDL statement the index synchronizer sends to the engine. -/
inductive DDL where
  | createIdx (q : String)
  | dropIdx (name : String)
deriving DecidableEq

/-- The read-only catalog answers the synchronizer consumes: whether a relation
with the canonical name exists, its current definition when it does, and the
definition the catalog reports after a CREATE INDEX ran. -/
structure IndexDb where
  relationExists : Bool
  oldDef : String
  defAfterCreate : Option String

/-- Embeds `NoPg._pg_create_index`: build both canonical DDL forms, send the
placeholder-numbered unqualified form, re-read the catalog definition and fail
unless it equals the sent text or the schema-qualified form.  Returns the DDL
statements issued alongside the outcome. -/
def _pg_create_index (T : ObjTypeT) (dt : Option TypeEntity) (field : String)
    (typefield : Option String) (is_unique : Bool) (db : IndexDb) :
    List DDL × Except String Unit :=
  match (do
      let _ ← pg_create_index_name T dt field typefield
      let q1 ← pg_create_index_query_internal false T dt field typefield is_unique
      let q2 ← pg_create_index_query_internal true T dt field typefield is_unique
      .ok (numerifyPlaceHolders q1, q2) : Except String (String × String)) with
  | .error e => ([], .error e)
  | .ok (query, query_v2) =>
      ([.createIdx query],
        match db.defAfterCreate with
        | none => .error ("Index does not exist")
        | some indexDef =>
            if indexDef = query || indexDef = query_v2 then .ok ()
            else .error "Failed to create index correctly!")

/-- Embeds `NoPg._pg_drop_index`: `DROP INDEX IF EXISTS <name>`. -/
def _pg_drop_index (T : ObjTypeT) (dt : Option TypeEntity) (field : String)
    (typefield : Option String) : Except String DDL := do
  let name ← pg_create_index_name T dt field typefield
  .ok (.dropIdx name)

/-- Embeds `NoPg._pg_declare_index`: create the index when the canonical name
does not exist; otherwise read the live definition and compare it with both
canonical forms — a match is a no-op, a mismatch drops the index and recreates
it (in that order).  `self` in the source is the pre-refactor name of the
instance itself.  Returns the DDL statements issued alongside the outcome. -/
def _pg_declare_index (T : ObjTypeT) (dt : Option TypeEntity) (field : String)
    (typefield : Option String) (is_unique : Bool) (db : IndexDb) :
    List DDL × Except String Unit :=
  match (pg_create_index_name T dt field typefield : Except String String) with
  | .error e => ([], .error e)
  | .ok name =>
      if !db.relationExists then
        _pg_create_index T dt field typefield is_unique db
      else
        match (do
            let v1 ← pg_create_index_query_v1 T dt field typefield is_unique
            let v2 ← pg_create_index_query_v2 T dt field typefield is_unique
            .ok (v1, v2) : Except String (String × String)) with
        | .error e => ([], .error e)
        | .ok (new_indexdef_v1, new_indexdef_v2) =>
            if new_indexdef_v1 = db.oldDef then ([], .ok ())
            else if new_indexdef_v2 = db.oldDef then ([], .ok ())
            else
              let (ddl, r) := _pg_create_index T dt field typefield is_unique db
              (.dropIdx name :: ddl, r)

/-- The query object the select pipeline assembles before compilation: the
pieces `_prepare_select_query` pushes into the external `Query` instance. -/
structure QueryM where
  table : String
  countFlag : Bool
  wheres : List Predicate
  orders : List Predicate
  groups : List Predicate
  fields : List Predicate
  limit : Option JVal
  offset : Option JVal

/-- Modelled from the spec: `Query.compile` of src/query.js (missing from the
repository snapshot, §4.5): assemble the field list, WHERE tree (AND-joined),
GROUP BY, ORDER BY and LIMIT/OFFSET into one statement, number the
placeholders contiguously, and list the parameters in text order.  The count
trait forces the field list to a single count expression. -/
def QueryM.compile (q : QueryM) : String × List JVal :=
  let wherePred := Predicate.join q.wheres "AND"
  let fieldPart := if q.countFlag then "count(*) AS count"
    else joinSep ", " (q.fields.map (·.text))
  let fieldParams := if q.countFlag then [] else (q.fields.map (·.params)).flatten
  let text := "SELECT " ++ fieldPart ++ " FROM " ++ q.table
    ++ (if q.wheres.isEmpty then "" else " WHERE " ++ wherePred.text)
    ++ (if q.groups.isEmpty then "" else " GROUP BY " ++ joinSep ", " (q.groups.map (·.text)))
    ++ (if q.orders.isEmpty then "" else " ORDER BY " ++ joinSep ", " (q.orders.map (·.text)))
    ++ (match q.limit with | some v => " LIMIT " ++ jsToString v | none => "")
    ++ (match q.offset with | some v => " OFFSET " ++ jsToString v | none => "")
  let params := fieldParams ++ wherePred.params
    ++ (q.groups.map (·.params)).flatten ++ (q.orders.map (·.params)).flatten
  (numerifyPlaceHolders text, params)

/-- The type entity the select pipeline resolves the discriminator to: an
entity discriminator is used directly; a name discriminator is looked up (the
oracle `dto` stands for the answer of `_get_type_by_name`) only when ordering,
grouping or type awareness need it. -/
def psqTypeObj (document_type : Option TypeDisc) (dto : Option TypeEntity)
    (traits : Traits) : Option TypeEntity :=
  let document_type_obj0 : Option TypeEntity := match document_type with
    | some (.ent te) => some te
    | _ => none
  let order_enabled := (traits.order.isSome) && has_property_names (strOrListToList traits.order)
  let group_enabled := (traits.group.isSome) && has_property_names (strOrListToList traits.group)
  let taB := match traits.typeAwareness with
    | some (.bool b) => b
    | _ => false
  match document_type_obj0, document_type with
  | some te, _ => some te
  | none, some (.name _) =>
      if group_enabled || order_enabled || taB then dto else none
  | none, _ => none

/-- The guard of the `$documents` injection: type awareness resolved true and
the resolved type entity carries a `documents` relation list. -/
def psqInject (document_type : Option TypeDisc) (dto : Option TypeEntity)
    (traits : Traits) : Bool :=
  (match traits.typeAwareness with
   | some (.bool b) => b
   | _ => false) &&
  (match psqTypeObj document_type dto traits with
   | some te => te.documents.isSome
   | none => false)

/-- The in-place `$documents` mutation of `_prepare_select_query`: under type
awareness, the resolved type's `documents` relation list is appended to the
caller's traits object. -/
def psqTraits (document_type : Option TypeDisc) (dto : Option TypeEntity)
    (traits : Traits) : Traits :=
  if psqInject document_type dto traits then
    { traits with documents := some ((traits.documents.getD [])
        ++ (((psqTypeObj document_type dto traits).bind (·.documents)).getD [])) }
  else traits

/-- The fallible middle of `_prepare_select_query` over the already-normalized
traits: the discriminator condition, the WHERE tree, ORDER BY/GROUP BY and the
field list. -/
def prepare_select_core (T : ObjTypeT) (document_type : Option TypeDisc)
    (dto : Option TypeEntity) (search_opts : FSpec) (traits : Traits) :
    Except String QueryM := do
  let countFlag := match traits.count with
    | some (.bool b) => b
    | _ => false
  let search_opts2 := parse_search_opts search_opts traits
  let typeCond ← parse_where_type_condition document_type
  let def_op := if traits.matchT = some "any" then "OR" else "AND"
  let wherePred ← match search_opts2 with
    | none => .ok none
    | some s => recursive_parse_predicates T def_op traits s
  let document_type_obj := psqTypeObj document_type dto traits
  let orders ← match traits.order with
    | none => .ok []
    | some o => parse_select_order T document_type_obj (strOrListToList (some o)) traits
  let groups ← match traits.group with
    | none => .ok []
    | some g => parse_select_order T document_type_obj (strOrListToList (some g)) traits
  let traits2 := psqTraits document_type dto traits
  let fields := parse_select_fields T traits2
  .ok { table := T.meta.table, countFlag := countFlag,
        wheres := (typeCond.toList ++ wherePred.toList),
        orders := orders, groups := groups, fields := fields,
        limit := traits2.limit, offset := traits2.offset }

/-- Embeds the synchronous core of `NoPg._prepare_select_query` (src/src/nopg.js):
the single-operator guard, trait normalization, search-option canonicalization,
the discriminator condition, the WHERE tree, the type lookup decision (the
oracle `dto` stands for the answer of `_get_type_by_name`), ORDER BY/GROUP BY,
the type-awareness document injection into the traits (which mutates the
caller's traits object, returned alongside), and the field list. -/
def prepare_select_query (T : ObjTypeT) (document_type : Option TypeDisc)
    (dto : Option TypeEntity) (search_opts : FSpec) (traits0 : Traits)
    (dflt_ta : Bool) : Except String (QueryM × Traits) :=
  if (match search_opts with
      | .arr l => l.length = 1 && is_operator (specToString (l.headD .undef))
      | _ => false) then
    .error "search_opts invalid"
  else
    (prepare_select_core T document_type dto search_opts
        (parse_search_traits dflt_ta traits0)).map
      (fun qm => (qm, psqTraits document_type dto (parse_search_traits dflt_ta traits0)))

/-- One compile run as `_doSelect` performs it: prepare, then compile; the
mutated traits object is returned with the statement. -/
def compileRun (T : ObjTypeT) (document_type : Option TypeDisc)
    (dto : Option TypeEntity) (search_opts : FSpec) (traits0 : Traits)
    (dflt_ta : Bool) : Except String ((String × List JVal) × Traits) := do
  let (q, t) ← prepare_select_query T document_type dto search_opts traits0 dflt_ta
  .ok (q.compile, t)

/-- Two successive compile runs of the same specification against the same
(mutated-in-place) traits object. -/
def runTwice (T : ObjTypeT) (document_type : Option TypeDisc)
    (dto : Option TypeEntity) (search_opts : FSpec) (traits0 : Traits)
    (dflt_ta : Bool) : Except String ((String × List JVal) × (String × List JVal)) := do
  let (s1, t1) ← compileRun T document_type dto search_opts traits0 dflt_ta
  let (s2, _) ← compileRun T document_type dto search_opts t1 dflt_ta
  .ok (s1, s2)

/-- The type-awareness `$documents` injection of `_prepare_select_query` is a
no-op: either type awareness resolves to false, or no reachable type entity
carries a `documents` relation list.  Under this condition the pipeline leaves
the caller's traits object alone (beyond the idempotent normalization). -/
def docInjectionFree (dflt_ta : Bool) (document_type : Option TypeDisc)
    (dto : Option TypeEntity) (traits0 : Traits) : Prop :=
  taStep dflt_ta traits0.typeAwareness = false ∨
  ((match document_type with
    | some (.ent te) => te.documents = none
    | _ => True) ∧
   (match dto with
    | some te => te.documents = none
    | none => True))

end NoPgM

namespace NoPgM

/-- The compiled-predicate invariant of the spec (§3): as many placeholder
markers in the text as parameters in the list. -/
def wfP (p : Predicate) : Prop := countPh p.text = p.params.length

mutual

/-- Placeholder-cleanliness of a filter specification: scalar leaves coerce to
marker-free fragments, map keys are marker-free beyond their leading column
marker, and an array's operator token (when its head is one) is marker-free.
Under this condition the compiled-predicate invariant holds; the counterexample
of claim C1 shows it fails without it. -/
def wfSpec : FSpec → Bool
  | .undef => true
  | .scalar v => dollarFree (jsToString v)
  | .func _ => true
  | .map m => wfMapB m
  | .arr [] => true
  | .arr (x :: xs) =>
      (!(is_operator (specToString x)) || dollarFree (specToString x))
        && wfSpec x && wfListB xs
termination_by structural s => s

/-- Elementwise cleanliness. -/
def wfListB : List FSpec → Bool
  | [] => true
  | x :: xs => wfSpec x && wfListB xs
termination_by structural l => l

/-- Key cleanliness of an equality map. -/
def wfMapB : List (String × JVal) → Bool
  | [] => true
  | (k, _) :: rest =>
      (if headChar k = some '$' then dollarFree (k.drop 1) else dollarFree k) && wfMapB rest
termination_by structural l => l

end

/-- The column keys of an entity type: its `$`-prefixed mapped keys, stripped
of the marker. -/
def colKeys (T : ObjTypeT) : List String :=
  (T.meta.keys.filter (fun k => headChar k = some '$')).map (fun k => k.drop 1)

/-- The reserved table columns `parse_predicate_pgtype` whitelists as direct. -/
def reservedDirectKeys : List String :=
  ["$version", "$created", "$modified", "$name", "$type", "$validator", "$id",
   "$types_id", "$documents_id"]

end NoPgM

namespace NoPgM

/-- Unfolding lemma: bind of a success. -/
@[simp]
theorem exc_bind_ok (a : α) (f : α → Except String β) :
    (Except.ok a >>= f) = f a := rfl

/-- Unfolding lemma: bind of an error. -/
@[simp]
theorem exc_bind_err (e : String) (f : α → Except String β) :
    ((Except.error e : Except String α) >>= f) = .error e := rfl

/-- Unfolding lemma: map of a success. -/
@[simp]
theorem exc_map_ok (a : α) (f : α → β) :
    (Except.ok a : Except String α).map f = .ok (f a) := rfl

/-- Unfolding lemma: map of an error. -/
@[simp]
theorem exc_map_err (e : String) (f : α → β) :
    (Except.error e : Except String α).map f = .error e := rfl

/-- C10: the canonical index-name derivation is not injective: the slug
lowercases the field path and collapses every maximal run of characters
outside `[a-z0-9]` into a single underscore, so the distinct field paths
`a.b` and `a-b` produce the same slug, and for the same table and
discriminator column their declared indexes collide on the same canonical
name. -/
theorem c10_index_name_collision :
    ("a.b" : String) ≠ "a-b"
    ∧ pg_convert_index_name "a.b" = "a_b"
    ∧ pg_convert_index_name "a-b" = "a_b"
    ∧ pg_convert_index_name "A..B" = "a_b"
    ∧ pg_create_index_name NoPgDocument none "a.b" (some "type")
        = .ok "documents_type_a_b_index"
    ∧ pg_create_index_name NoPgDocument none "a-b" (some "type")
        = .ok "documents_type_a_b_index" :=
  ⟨by decide, rfl, rfl, rfl, rfl, rfl⟩

/-- C3 (counterexample): `$content` is a reserved table column (it carries the
leading column marker and is a real column of the documents table), yet its
resolved cast kind is `text`, not `direct` — only the nine whitelisted columns
resolve to `direct`. -/
theorem c3_cast_counterexample :
    headChar "$content" = some '$'
    ∧ parse_predicate_pgtype NoPgDocument none "$content" = "text"
    ∧ ("text" : String) ≠ "direct" :=
  ⟨rfl, rfl, by decide⟩

/-- C3 (amended): the nine whitelisted reserved columns resolve to `direct`;
any other key with the leading column marker resolves to `text`; a plain field
resolves through its declared schema kind — `number` to `numeric`, `boolean`
to `boolean`, anything else or absent to `text`. -/
theorem c3_cast_resolution (T : ObjTypeT) (dt : Option TypeEntity) (key : String) :
    (key ∈ reservedDirectKeys → parse_predicate_pgtype T dt key = "direct")
    ∧ (headChar key = some '$' → key ∉ reservedDirectKeys →
        parse_predicate_pgtype T dt key = "text")
    ∧ (headChar key ≠ some '$' →
        ∀ t, ((dt.bind (·.schemaProps)).getD []).lookup key = some t →
          parse_predicate_pgtype T dt key =
            (if t = "number" then "numeric" else if t = "boolean" then "boolean" else "text"))
    ∧ (headChar key ≠ some '$' →
        ((dt.bind (·.schemaProps)).getD []).lookup key = none →
        parse_predicate_pgtype T dt key = "text") := by
  refine ⟨?_, ?_, ?_, ?_⟩
  · intro h
    simp only [reservedDirectKeys, List.mem_cons, List.not_mem_nil, or_false] at h
    rcases h with h|h|h|h|h|h|h|h|h <;> subst h <;> rfl
  · intro h1 h2
    simp only [reservedDirectKeys, List.mem_cons, List.mem_singleton, not_or] at h2
    obtain ⟨n1, n2, n3, n4, n5, n6, n7, n8, n9⟩ := h2
    simp [parse_predicate_pgtype, h1, n1, n2, n3, n4, n5, n6, n7, n8, n9]
  · intro h1 t ht
    by_cases h0 : t = ""
    · subst h0; simp [parse_predicate_pgtype, h1, ht]
    · simp [parse_predicate_pgtype, h1, ht, h0]
  · intro h1 ht
    simp [parse_predicate_pgtype, h1, ht]

/-- C3 (witness): the whitelist branch at `$version`. -/
theorem c3_cast_resolution_witness :
    parse_predicate_pgtype NoPgDocument none "$version" = "direct" :=
  (c3_cast_resolution NoPgDocument none "$version").1 (by simp [reservedDirectKeys])

end NoPgM

namespace NoPgM

/-- C2 (counterexample): a type discriminator given as a type-entity reference
is compiled to a condition on the legacy type-id column `types_id`, not on the
direct discriminator column `type`. -/
theorem c2_type_entity_counterexample :
    parse_where_type_condition (some (.ent { id := "t-1" }))
      = .ok (some { text := "types_id = $", params := [.str "t-1"] })
    ∧ ("types_id = $" : String) ≠ "type = $" :=
  ⟨rfl, by decide⟩

/-- C2 (amended): a discriminator given by name restricts rows through the
direct discriminator column `type`; a list of names gives the OR-join of such
conditions; but a type-entity reference restricts through the legacy
`types_id` column, and a list element that is not a name is rejected with the
unknown-type error. -/
theorem c2_type_discriminator (s : String) (te : TypeEntity) (names : List String)
    (l : List TypeDisc) (x : TypeDisc) (hx : x ∈ l) (hxn : ∀ n, x ≠ .name n) :
    parse_where_type_condition (some (.name s))
      = .ok (some { text := "type = $", params := [.str s] })
    ∧ parse_where_type_condition (some (.ent te))
      = .ok (some { text := "types_id = $", params := [.str te.id] })
    ∧ parse_where_type_condition (some (.listD (names.map .name)))
      = .ok (some (Predicate.join
          (names.map (fun n => { text := "type = $", params := [.str n] })) "OR"))
    ∧ parse_where_type_condition (some (.listD l)) = .error "Unknown type" := by
  refine ⟨rfl, rfl, ?_, ?_⟩
  · have hm : ∀ ns : List String,
        mapE (fun td =>
          (match td with
           | .name s => .ok { text := "type = $", params := [.str s] }
           | _ => .error "Unknown type" : Except String Predicate)) (ns.map TypeDisc.name)
        = .ok (ns.map (fun n => ({ text := "type = $", params := [.str n] } : Predicate))) := by
      intro ns
      induction ns with
      | nil => rfl
      | cons n ns ih => simp [mapE, ih]
    simp [parse_where_type_condition, parse_where_type_condition_array, hm]
  · have herr : ∀ l' : List TypeDisc, (∃ y ∈ l', ∀ n, y ≠ TypeDisc.name n) →
        parse_where_type_condition_array l' = .error "Unknown type" := by
      intro l' hl
      induction l' with
      | nil => rcases hl with ⟨y, hy, _⟩; cases hy
      | cons a as ih =>
          rcases hl with ⟨y, hy, hyn⟩
          rcases List.mem_cons.mp hy with hh | hh
          · subst hh
            cases y with
            | name n => exact absurd rfl (hyn n)
            | ent t => rfl
            | listD ll => rfl
          · have htl := ih ⟨y, hh, hyn⟩
            cases a with
            | name n =>
                simp only [parse_where_type_condition_array] at htl ⊢
                simp only [mapE]
                cases has : mapE (fun td =>
                    (match td with
                     | .name s => .ok { text := "type = $", params := [.str s] }
                     | _ => .error "Unknown type" : Except String Predicate)) as with
                | error e =>
                    simp [has] at htl ⊢
                    simpa using htl
                | ok ps => simp [has] at htl
            | ent t => rfl
            | listD ll => rfl
    have harr : parse_where_type_condition_array l = .error "Unknown type" :=
      herr l ⟨x, hx, hxn⟩
    simp [parse_where_type_condition, harr, Except.map]

/-- C2 (witness): a list containing a type-entity reference is rejected. -/
theorem c2_type_discriminator_witness :
    parse_where_type_condition (some (.listD [.name "a", .ent { id := "t-1" }]))
      = .error "Unknown type" :=
  (c2_type_discriminator "u" { id := "t-1" } [] [.name "a", .ent { id := "t-1" }]
    (.ent { id := "t-1" }) (by simp) (fun n h => by cases h)).2.2.2

/-- C7: a filter specification that is an array holding exactly one element
which is an operator token (AND, OR, or BIND with an optional cast suffix)
makes query preparation fail before any statement is produced (the source's
`search_opts invalid` TypeError, the spec's `InvalidPredicate`). -/
theorem c7_single_operator_guard (T : ObjTypeT) (dt : Option TypeDisc)
    (dto : Option TypeEntity) (traits : Traits) (dflt : Bool) (x : FSpec)
    (h : is_operator (specToString x) = true) :
    prepare_select_query T dt dto (.arr [x]) traits dflt
      = .error "search_opts invalid" := by
  unfold prepare_select_query
  split
  · rfl
  · rename_i hcond
    exfalso
    apply hcond
    simpa using h

/-- C7 (witness): the bare `["BIND"]` specification fails this way. -/
theorem c7_single_operator_guard_witness :
    prepare_select_query NoPgDocument none none (.arr [.scalar (.str "BIND")]) {} false
      = .error "search_opts invalid" :=
  c7_single_operator_guard NoPgDocument none none {} false (.scalar (.str "BIND"))
    (by decide)

end NoPgM

namespace NoPgM

/-- C6: the update key list equals the entity type's column keys intersected
with the keys present in the patched data, minus the keys whose patched value
deep-equals (as JSON) the original value; when that list is empty no UPDATE
statement is issued and the current state is re-selected; in particular a
patch that deep-equals the original on every key produces no UPDATE. -/
theorem c6_update_keys (T : ObjTypeT) (obj data : List (String × JVal))
    (hid : (obj.lookup "$id").elim false jvTruthy = true) :
    (∀ k, k ∈ updateKeys T data obj ↔
      (k ∈ colKeys T ∧ (data.lookup k).isSome
        ∧ json_cmp (data.lookup k) (obj.lookup ("$" ++ k)) = false))
    ∧ (updateKeys T data obj = [] →
        _doUpdate T obj data = .ok (.select [("$id", (obj.lookup "$id").getD .null)]))
    ∧ ((∀ k, json_cmp (data.lookup k) (obj.lookup ("$" ++ k)) = true) →
        updateKeys T data obj = []) := by
  refine ⟨?_, ?_, ?_⟩
  · intro k
    simp only [updateKeys, colKeys, List.mem_filter, Bool.not_eq_true']
    tauto
  · intro h
    simp [_doUpdate, hid, h]
  · intro hall
    simp only [updateKeys, List.filter_eq_nil_iff]
    intro k _
    simp [hall k]

/-- C6 (witness): a patch identical to the original re-selects instead of
updating. -/
theorem c6_update_keys_witness :
    _doUpdate NoPgDocument
      [("$id", .str "u-1"), ("$type", .str "User"), ("$content", .obj [("a", .num 1)])]
      [("id", .str "u-1"), ("type", .str "User"), ("content", .obj [("a", .num 1)])]
      = .ok (.select [("$id", .str "u-1")]) :=
  (c6_update_keys NoPgDocument
      [("$id", .str "u-1"), ("$type", .str "User"), ("$content", .obj [("a", .num 1)])]
      [("id", .str "u-1"), ("type", .str "User"), ("content", .obj [("a", .num 1)])]
      rfl).2.1 rfl

end NoPgM

namespace NoPgM

/-- The first function node of a BIND operand list built from key tokens,
a function and arguments sits right after the key tokens. -/
theorem findIdx_scalar_keys (ks : List String) (f : String) (args : List FSpec) :
    ((ks.map (fun k => FSpec.scalar (.str k))) ++ .func f :: args).findIdx? isFuncSpec
      = some ks.length := by
  induction ks with
  | nil => simp [List.findIdx?_cons, isFuncSpec]
  | cons k ks ih => simp [List.findIdx?_cons, isFuncSpec, ih]

/-- Key-token extraction succeeds on a list of string scalars. -/
theorem mapE_scalar_keys (ks : List String) :
    mapE (fun sp =>
      (match sp with
       | .scalar (.str k) => .ok k
       | _ => .error "AssertUtils.isString" : Except String String))
      (ks.map (fun k => FSpec.scalar (.str k))) = .ok ks := by
  induction ks with
  | nil => rfl
  | cons k ks ih => simp [mapE, ih]

/-- The initial-less reduce with concatenation flattens the whole list. -/
theorem foldl_append_flatten (x : List α) (xs : List (List α)) :
    xs.foldl (· ++ ·) x = (x :: xs).flatten := by
  induction xs generalizing x with
  | nil => simp
  | cons a as ih => simp [List.foldl_cons, ih, List.flatten]

/-- C8 (amended): for every BIND array with at least one field-path token, one
function reference and literal arguments, the compiled predicate is the single
call expression to the external dispatch procedure over the resolved column
expressions (each resolved with the epoch option enabled) and two positional
JSON parameters; its parameter list is the concatenated field-resolution
parameters followed by exactly the JSON-serialized function source and the
JSON-serialized literal argument list; the expression is cast to the requested
return type, `boolean` when none is requested — which is what the array rule
passes for a bare `BIND` operator. -/
theorem c8_bind_predicate (T : ObjTypeT) (traits : Traits) (ks : List String)
    (hks : ks ≠ []) (f : String) (args : List FSpec) (rt : String) :
    parse_function_predicate T ((ks.map (fun k => FSpec.scalar (.str k))) ++ .func f :: args) rt traits
      = .ok { text := parse_predicate_pgcast_by_type (if rt = "" then "boolean" else rt)
                ("nopg.call_func(array_to_json(ARRAY["
                  ++ joinSep ", " (ks.map (fun k =>
                        (parse_predicate_key fuelD T { epoch := true, traits := traits } k).getString))
                  ++ "]), $::json, $::json)"),
              params := (ks.map (fun k =>
                  (parse_predicate_key fuelD T { epoch := true, traits := traits } k).getParams)).flatten
                ++ [.str (JVal.stringify (.str f)),
                    .str (JVal.stringify (.arr (args.map specToJVal)))] }
    ∧ (∀ rest : List FSpec, parse_array_predicate T "AND" traits (.scalar (.str "BIND") :: rest)
        = (parse_function_predicate T rest "boolean" traits).map some) := by
  constructor
  · unfold parse_function_predicate
    rw [findIdx_scalar_keys]
    have hlen : (ks.map (fun k => FSpec.scalar (.str k))).length = ks.length :=
      List.length_map ..
    have hget : ((ks.map (fun k => FSpec.scalar (.str k))) ++ .func f :: args)[ks.length]?
        = some (.func f) := by
      rw [← hlen, List.getElem?_append_right (Nat.le_refl _)]
      simp
    have htake : ((ks.map (fun k => FSpec.scalar (.str k))) ++ .func f :: args).take ks.length
        = ks.map (fun k => FSpec.scalar (.str k)) := by
      rw [← hlen]; exact List.take_left ..
    have hdrop : ((ks.map (fun k => FSpec.scalar (.str k))) ++ .func f :: args).drop (ks.length + 1)
        = args := by
      rw [← List.drop_drop, ← hlen, List.drop_left]
      simp
    simp only [hget, htake, hdrop, mapE_scalar_keys, exc_bind_ok]
    cases ks with
    | nil => exact absurd rfl hks
    | cons k0 ks' =>
        simp only [List.map_cons, List.map_map, exc_bind_ok]
        rw [foldl_append_flatten]
        rfl
  · intro rest
    rfl

/-- C8 (counterexample): a BIND array with a function but no field-path token
crashes in the initial-less reduce over the field parameter lists instead of
compiling to a call predicate. -/
theorem c8_bind_counterexample :
    recursive_parse_predicates NoPgDocument "AND" {} (.arr [.scalar (.str "BIND"), .func "f"])
      = .error "Reduce of empty array with no initial value" := rfl

/-- C8 (witness): one field token, a function and one literal argument. -/
theorem c8_bind_predicate_witness :
    parse_function_predicate NoPgDocument
        ((["age"].map (fun k => FSpec.scalar (.str k))) ++ FSpec.func "f" :: [FSpec.scalar (.num 1)]) "" {}
      = .ok { text := parse_predicate_pgcast_by_type "boolean"
                ("nopg.call_func(array_to_json(ARRAY["
                  ++ joinSep ", " (["age"].map (fun k =>
                        (parse_predicate_key fuelD NoPgDocument { epoch := true, traits := {} } k).getString))
                  ++ "]), $::json, $::json)"),
              params := (["age"].map (fun k =>
                  (parse_predicate_key fuelD NoPgDocument { epoch := true, traits := {} } k).getParams)).flatten
                ++ [.str (JVal.stringify (.str "f")),
                    .str (JVal.stringify (.arr ([FSpec.scalar (.num 1)].map specToJVal)))] } := by
  have h := (c8_bind_predicate NoPgDocument {} ["age"] (by simp) "f" [.scalar (.num 1)] "").1
  simpa using h

end NoPgM

namespace NoPgM

/-- A `takeWhile` over a list whose members all satisfy the test is the list
itself. -/
theorem takeWhile_all_eq {p : α → Bool} {l : List α} (h : ∀ a ∈ l, p a = true) :
    l.takeWhile p = l := by
  induction l with
  | nil => rfl
  | cons a as ih =>
      rw [List.takeWhile_cons, h a (List.mem_cons_self ..), if_pos rfl]
      rw [ih (fun b hb => h b (List.mem_cons_of_mem _ hb))]

/-- C4 (amended): key resolution is a pure function of its inputs, and for a
plain key (no leading column marker) it ignores the resolution options
entirely, so filtering field lists, ordering, grouping and index creation all
resolve the same `(ObjType, key)` pair to the same fragment: the ORDER BY
entry for a plain, suffix-free key is exactly the type-aware cast of the very
expression the index builder casts.  The equality-map filter path, however,
resolves keys through a different, text-operator expression (see the
counterexample). -/
theorem c4_resolution_determinism (fuel : Nat) (T : ObjTypeT) (dt : Option TypeEntity)
    (traits : Traits) (opts opts' : PPKOpts) (key : String)
    (hplain : headChar key ≠ some '$') (hcolon : key.data.all (· ≠ ':') = true)
    (hbind : key ≠ "BIND") :
    parse_predicate_key fuel T opts key = parse_predicate_key fuel T opts' key
    ∧ parse_select_order T dt [key] traits
      = .ok [{ text := parse_predicate_pgcast T dt key
                 (parse_predicate_key fuelD T { epoch := false } key).getString,
               params := (parse_predicate_key fuelD T { epoch := false } key).getParams,
               mdatakey := some (get_predicate_datakey T), mkey := some key }] := by
  have hind : ∀ o1 o2 : PPKOpts,
      parse_predicate_key fuel T o1 key = parse_predicate_key fuel T o2 key := by
    intro o1 o2
    unfold parse_predicate_key
    rw [if_pos hplain, if_pos hplain]
  have hindD : ∀ o1 o2 : PPKOpts,
      parse_predicate_key fuelD T o1 key = parse_predicate_key fuelD T o2 key := by
    intro o1 o2
    unfold parse_predicate_key
    rw [if_pos hplain, if_pos hplain]
  have hname : parse_operator_name key = key := by
    simp only [parse_operator_name]
    have := takeWhile_all_eq (p := fun c => decide (c ≠ ':')) (l := key.data)
      (by simpa [List.all_eq_true] using hcolon)
    rw [this]
  refine ⟨hind opts opts', ?_⟩
  simp only [parse_select_order, mapE, hname, if_neg hbind, exc_bind_ok]
  rw [hindD { epoch := true, traits := traits } { epoch := false }]
  have hppk : parse_predicate_key fuelD T { epoch := false } key
      = { text := parse_keyref_json (get_predicate_datakey T) key, params := [],
          mdatakey := some (get_predicate_datakey T), mkey := some key } := by
    unfold parse_predicate_key
    rw [if_pos hplain]
  rw [hppk]

/-- C4 (counterexample): the same `(ObjType, key)` pair resolved for filtering
(the equality map of the WHERE tree) and for index creation yields two
textually different SQL fragments for the plain field `age` declared `number`:
the filter compares `((content ->> 'age'::text))::numeric`, the index casts
`(((content -> 'age'::text))::text)::numeric`. -/
theorem c4_filter_index_counterexample :
    parse_meta_properties (get_predicate_datakey NoPgDocument) "age" (.num 10)
      = .ok ("((content ->> 'age'::text))::numeric", .num 10)
    ∧ parse_predicate_pgcast NoPgDocument
        (some { id := "", schemaProps := some [("age", "number")], documents := none }) "age"
        ((parse_predicate_key fuelD NoPgDocument { epoch := false } "age").getString)
      = "(((content -> 'age'::text))::text)::numeric"
    ∧ ("((content ->> 'age'::text))::numeric" : String)
      ≠ "(((content -> 'age'::text))::text)::numeric" :=
  ⟨rfl, rfl, by decide⟩

/-- C4 (witness): the plain field `age` resolves identically for ordering and
indexing. -/
theorem c4_resolution_determinism_witness :
    parse_select_order NoPgDocument
        (some { id := "", schemaProps := some [("age", "number")], documents := none })
        ["age"] {}
      = .ok [{ text := parse_predicate_pgcast NoPgDocument
                 (some { id := "", schemaProps := some [("age", "number")], documents := none }) "age"
                 (parse_predicate_key fuelD NoPgDocument { epoch := false } "age").getString,
               params := (parse_predicate_key fuelD NoPgDocument { epoch := false } "age").getParams,
               mdatakey := some (get_predicate_datakey NoPgDocument), mkey := some "age" }] :=
  (c4_resolution_determinism fuelD NoPgDocument
      (some { id := "", schemaProps := some [("age", "number")], documents := none }) {}
      {} {} "age" (by decide) (by decide) (by decide)).2

end NoPgM

namespace NoPgM

/-- Renumbering a marker-free fragment leaves it unchanged. -/
theorem numerifyAux_of_no_dollar (cs : List Char) (k : Nat) (h : cs.count '$' = 0) :
    numerifyAux cs k = cs := by
  induction cs generalizing k with
  | nil => rfl
  | cons c cs ih =>
      rw [List.count_cons] at h
      by_cases hc : c = '$'
      · subst hc; simp at h
      · have hcs : cs.count '$' = 0 := by
          omega
        simp [numerifyAux, hc, ih _ hcs]

/-- Renumbering a marker-free statement text is the identity. -/
theorem numerify_of_dollarFree (s : String) (h : countPh s = 0) :
    numerifyPlaceHolders s = s := by
  cases s with
  | mk data =>
      show String.mk (numerifyAux data 1) = String.mk data
      rw [numerifyAux_of_no_dollar data 1 h]

/-- A successful unqualified canonical DDL text comes from the internal
builder. -/
theorem qv1_extract {T : ObjTypeT} {dt : Option TypeEntity} {field : String}
    {typefield : Option String} {u : Bool} {v : String}
    (h : pg_create_index_query_v1 T dt field typefield u = .ok v) :
    pg_create_index_query_internal false T dt field typefield u = .ok v := by
  unfold pg_create_index_query_v1 at h
  cases hint : pg_create_index_query_internal false T dt field typefield u with
  | error e => rw [hint] at h; simp at h
  | ok q =>
      rw [hint] at h
      simp only [exc_bind_ok] at h
      by_cases hp : (parse_predicate_key fuelD T { epoch := false } field).getParams.length ≠ 0
      · rw [if_pos hp] at h; cases h
      · rw [if_neg hp] at h
        cases h
        rfl

/-- A successful schema-qualified canonical DDL text comes from the internal
builder. -/
theorem qv2_extract {T : ObjTypeT} {dt : Option TypeEntity} {field : String}
    {typefield : Option String} {u : Bool} {v : String}
    (h : pg_create_index_query_v2 T dt field typefield u = .ok v) :
    pg_create_index_query_internal true T dt field typefield u = .ok v := by
  unfold pg_create_index_query_v2 at h
  cases hint : pg_create_index_query_internal true T dt field typefield u with
  | error e => rw [hint] at h; simp at h
  | ok q =>
      rw [hint] at h
      simp only [exc_bind_ok] at h
      by_cases hp : (parse_predicate_key fuelD T { epoch := false } field).getParams.length ≠ 0
      · rw [if_pos hp] at h; cases h
      · rw [if_neg hp] at h
        cases h
        rfl

/-- C5: index declaration is idempotent and self-verifying.  When the index
exists and its live catalog definition equals either canonical DDL form, the
call issues no DDL; when neither matches, it issues exactly a drop of the
canonical name followed by the create, in that order; when the index is
absent it goes straight to creation; creation always issues the unqualified
canonical form, and its verification succeeds exactly when the re-read
catalog definition equals one of the two canonical forms. -/
theorem c5_declare_index (T : ObjTypeT) (dt : Option TypeEntity) (field : String)
    (typefield : Option String) (u : Bool) (db : IndexDb) (v1 v2 nm : String)
    (h1 : pg_create_index_query_v1 T dt field typefield u = .ok v1)
    (h2 : pg_create_index_query_v2 T dt field typefield u = .ok v2)
    (hn : pg_create_index_name T dt field typefield = .ok nm)
    (hph : countPh v1 = 0) :
    (db.relationExists = true → (db.oldDef = v1 ∨ db.oldDef = v2) →
      _pg_declare_index T dt field typefield u db = ([], .ok ()))
    ∧ (db.relationExists = true → db.oldDef ≠ v1 → db.oldDef ≠ v2 →
      (_pg_declare_index T dt field typefield u db).1 = [.dropIdx nm, .createIdx v1])
    ∧ (db.relationExists = false →
      _pg_declare_index T dt field typefield u db = _pg_create_index T dt field typefield u db)
    ∧ ((_pg_create_index T dt field typefield u db).1 = [.createIdx v1])
    ∧ (∀ d, db.defAfterCreate = some d →
      ((_pg_create_index T dt field typefield u db).2 = .ok () ↔ (d = v1 ∨ d = v2))) := by
  have hint1 := qv1_extract h1
  have hint2 := qv2_extract h2
  have hnum : numerifyPlaceHolders v1 = v1 := numerify_of_dollarFree v1 hph
  have hcreate : _pg_create_index T dt field typefield u db
      = ([.createIdx v1],
         match db.defAfterCreate with
         | none => .error "Index does not exist"
         | some indexDef =>
             if indexDef = v1 || indexDef = v2 then .ok ()
             else .error "Failed to create index correctly!") := by
    unfold _pg_create_index
    rw [hn]
    simp only [exc_bind_ok, hint1, hint2, hnum]
  refine ⟨?_, ?_, ?_, ?_, ?_⟩
  · intro hex hold
    unfold _pg_declare_index
    rw [hn, hex]
    simp only [Bool.not_true, Bool.false_eq_true, if_false, h1, h2, exc_bind_ok]
    rcases hold with hold | hold
    · rw [if_pos hold.symm]
    · by_cases hv : v1 = db.oldDef
      · rw [if_pos hv]
      · rw [if_neg hv, if_pos hold.symm]
  · intro hex hne1 hne2
    unfold _pg_declare_index
    rw [hn, hex]
    simp only [Bool.not_true, Bool.false_eq_true, if_false, h1, h2, exc_bind_ok]
    rw [if_neg (fun h => hne1 h.symm), if_neg (fun h => hne2 h.symm), hcreate]
  · intro hex
    unfold _pg_declare_index
    rw [hn, hex]
    simp
  · rw [hcreate]
  · intro d hd
    rw [hcreate]
    simp only [hd]
    constructor
    · intro h
      by_cases hc : d = v1 ∨ d = v2
      · exact hc
      · exfalso
        rw [if_neg (by simpa using hc)] at h
        cases h
    · intro hc
      rw [if_pos (by simpa using hc)]

/-- C5 (witness): declaring the existing, definition-matching index
`documents_type_foo_index` issues no DDL, and verification of a fresh creation
accepts the schema-qualified catalog answer. -/
theorem c5_declare_index_witness :
    _pg_declare_index NoPgDocument none "foo" (some "type") false
      { relationExists := true,
        oldDef := "CREATE INDEX documents_type_foo_index ON documents USING btree (type, ((content ->> 'foo'::text)))",
        defAfterCreate := none } = ([], .ok ()) :=
  (c5_declare_index NoPgDocument none "foo" (some "type") false
      { relationExists := true,
        oldDef := "CREATE INDEX documents_type_foo_index ON documents USING btree (type, ((content ->> 'foo'::text)))",
        defAfterCreate := none }
      "CREATE INDEX documents_type_foo_index ON documents USING btree (type, ((content ->> 'foo'::text)))"
      "CREATE INDEX documents_type_foo_index ON public.documents USING btree (type, ((content ->> 'foo'::text)))"
      "documents_type_foo_index" rfl rfl rfl (by decide)).1 rfl (.inl rfl)

end NoPgM

namespace NoPgM

/-- Appending strings appends their character data. -/
theorem strdata_append : ∀ (a b : String), (a ++ b).data = a.data ++ b.data :=
  fun ⟨_⟩ ⟨_⟩ => rfl

/-- Marker count of a packed character list. -/
theorem countPh_mk (l : List Char) : countPh ⟨l⟩ = l.count '$' := rfl

/-- Marker count distributes over append. -/
theorem countPh_append (a b : String) : countPh (a ++ b) = countPh a + countPh b := by
  simp [countPh, strdata_append, List.count_append]

/-- Marker count of a flattened list of segments. -/
theorem count_flatten_eq_sum (c : Char) (ll : List (List Char)) :
    ll.flatten.count c = (ll.map (·.count c)).sum := by
  induction ll with
  | nil => rfl
  | cons x xs ih => simp [List.count_append, ih]

/-- Marker count of a joined fragment list with a marker-free separator. -/
theorem countPh_joinSep (sep : String) (l : List String) (hsep : countPh sep = 0) :
    countPh (joinSep sep l) = (l.map countPh).sum := by
  induction l with
  | nil => simp [joinSep, countPh]
  | cons x xs ih =>
      cases xs with
      | nil => simp [joinSep]
      | cons y ys =>
          show countPh (x ++ sep ++ joinSep sep (y :: ys)) = _
          rw [countPh_append, countPh_append, hsep, ih]
          simp

/-- Marker count never exceeds that of a superlist. -/
theorem countPh_of_sublist {a b : List Char} (h : List.Sublist a b)
    (hb : b.count '$' = 0) : a.count '$' = 0 :=
  Nat.le_zero.mp (hb ▸ h.count_le '$')

/-- Marker count of a dropped string. -/
theorem countPh_drop (s : String) (n : Nat) (h : countPh s = 0) :
    countPh (s.drop n) = 0 := by
  have : (s.drop n).data = s.data.drop n := String.data_drop ..
  simp only [countPh, this]
  exact countPh_of_sublist (List.drop_sublist ..) h

/-- Joining predicates preserves the placeholder invariant when the operator
text is marker-free. -/
theorem join_wf (ps : List Predicate) (op : String) (h : ∀ p ∈ ps, wfP p)
    (hop : countPh op = 0) : wfP (Predicate.join ps op) := by
  match ps with
  | [] => simp [Predicate.join, wfP, countPh]
  | [p] => simpa [Predicate.join] using h p (by simp)
  | p :: q :: rest =>
      show wfP { text := "(" ++ joinSep (") " ++ op ++ " (")
                    ((p :: q :: rest).map (·.text)) ++ ")",
                 params := ((p :: q :: rest).map (·.params)).flatten }
      simp only [wfP]
      rw [countPh_append, countPh_append, countPh_joinSep _ _ (by
        rw [countPh_append, countPh_append, hop]; rfl)]
      rw [List.length_flatten]
      have hzero : countPh "(" = 0 := rfl
      have hzero2 : countPh ")" = 0 := rfl
      rw [hzero, hzero2, List.map_map, List.map_map]
      have hmap : (p :: q :: rest).map (countPh ∘ (·.text))
          = (p :: q :: rest).map (List.length ∘ (·.params)) := by
        apply List.map_congr_left
        intro a ha
        exact h a ha
      rw [hmap]
      omega

/-- Splitting on a character never returns the empty segment list. -/
theorem splitOnCh_ne_nil (c : Char) (cs : List Char) : splitOnCh c cs ≠ [] := by
  cases cs with
  | nil => simp [splitOnCh]
  | cons x xs =>
      simp only [splitOnCh]
      rcases hsp : splitOnCh c xs with _ | ⟨s, rest⟩ <;> by_cases hx : x = c <;>
        simp [hsp, hx]

/-- The segments of a split carry exactly the non-separator characters. -/
theorem splitOnCh_flatten (c : Char) (cs : List Char) :
    (splitOnCh c cs).flatten = cs.filter (· ≠ c) := by
  induction cs with
  | nil => rfl
  | cons x xs ih =>
      simp only [splitOnCh]
      rcases hsp : splitOnCh c xs with _ | ⟨s, rest⟩
      · exact absurd hsp (splitOnCh_ne_nil c xs)
      · rw [hsp] at ih
        by_cases hx : x = c
        · subst hx
          simp [hsp, List.filter_cons, ih]
        · simp [hsp, hx, List.filter_cons]
          simpa using ih

/-- The JSON navigation expression for a marker-free data key and key is
marker-free. -/
theorem countPh_keyref_json (datakey key : String) (hd : countPh datakey = 0)
    (hk : countPh key = 0) : countPh (parse_keyref_json datakey key) = 0 := by
  unfold parse_keyref_json
  split
  · rw [countPh_append, countPh_append, countPh_append, countPh_append, hd, hk]
    rfl
  · rw [countPh_append, countPh_append, countPh_append, countPh_append, hd]
    have hjoin : countPh (joinSep "," ((splitOnCh '.' key.data).map (⟨·⟩ : List Char → String))) = 0 := by
      rw [countPh_joinSep _ _ (by rfl)]
      rw [List.map_map]
      have : ((splitOnCh '.' key.data).map (countPh ∘ (⟨·⟩ : List Char → String)))
          = (splitOnCh '.' key.data).map (·.count '$') := by
        apply List.map_congr_left
        intro a _
        rfl
      rw [this, ← count_flatten_eq_sum, splitOnCh_flatten, List.count_filter (by decide)]
      exact hk
    rw [hjoin]
    rfl

/-- The text navigation expression for a marker-free data key and key is
marker-free. -/
theorem countPh_keyref_text (datakey key : String) (hd : countPh datakey = 0)
    (hk : countPh key = 0) : countPh (parse_keyref_text datakey key) = 0 := by
  unfold parse_keyref_text
  split
  · rw [countPh_append, countPh_append, countPh_append, countPh_append, hd, hk]
    rfl
  · rw [countPh_append, countPh_append, countPh_append, countPh_append, hd]
    have hjoin : countPh (joinSep "," ((splitOnCh '.' key.data).map (⟨·⟩ : List Char → String))) = 0 := by
      rw [countPh_joinSep _ _ (by rfl)]
      rw [List.map_map]
      have : ((splitOnCh '.' key.data).map (countPh ∘ (⟨·⟩ : List Char → String)))
          = (splitOnCh '.' key.data).map (·.count '$') := by
        apply List.map_congr_left
        intro a _
        rfl
      rw [this, ← count_flatten_eq_sum, splitOnCh_flatten, List.count_filter (by decide)]
      exact hk
    rw [hjoin]
    rfl

/-- A keyword that passes the validity class contains no marker. -/
theorem validkey_countPh (k : String) (h : is_valid_key k = true) : countPh k = 0 := by
  simp only [is_valid_key, Bool.and_eq_true, List.all_eq_true] at h
  apply List.count_eq_zero.mpr
  intro hm
  exact absurd (h.2 '$' hm) (by decide)

end NoPgM

namespace NoPgM

/-- A found last occurrence decomposes the string around the pattern. -/
theorem jsLastIndexOf_decomp (x pat : String) (i : Nat)
    (h : jsLastIndexOf x pat = some i) :
    x.data = x.data.take i ++ pat.data ++ x.data.drop (i + pat.data.length) := by
  have hmem : i ∈ matchPositions x.data pat.data := List.mem_of_mem_getLast? h
  have hpref : pat.data.isPrefixOf (x.data.drop i) = true :=
    (List.mem_filter.mp hmem).2
  obtain ⟨t, ht⟩ := List.isPrefixOf_iff_prefix.mp hpref
  have hx : x.data = x.data.take i ++ (pat.data ++ t) := by
    rw [ht, List.take_append_drop]
  have htt : t = x.data.drop (i + pat.data.length) := by
    have hzz : (pat.data ++ t).drop pat.data.length = t := by simp
    rw [← hzz, ht, List.drop_drop, Nat.add_comm]
  rw [← htt]
  conv => lhs; rw [hx]
  rw [List.append_assoc]

/-- Replacing the last occurrence by a pattern with equal marker count keeps
the marker count. -/
theorem replace_last_countPh (x pat repl : String) (hp : countPh pat = countPh repl) :
    countPh (replace_last x pat repl) = countPh x := by
  unfold replace_last
  cases h : jsLastIndexOf x pat with
  | none => rfl
  | some i =>
      have hdec := jsLastIndexOf_decomp x pat i h
      show countPh (⟨x.data.take i⟩ ++ repl ++ ⟨x.data.drop (i + pat.data.length)⟩) = countPh x
      rw [countPh_append, countPh_append]
      have hx2 : countPh x = countPh (⟨x.data.take i⟩ : String) + countPh pat
          + countPh (⟨x.data.drop (i + pat.data.length)⟩ : String) := by
        show x.data.count '$' = (x.data.take i).count '$' + pat.data.count '$'
          + (x.data.drop (i + pat.data.length)).count '$'
        conv => lhs; rw [hdec]
        rw [List.count_append, List.count_append]
      rw [hx2, hp]

/-- The text cast keeps the marker count. -/
theorem countPh_castText (x : String) : countPh (castText x) = countPh x := by
  unfold castText
  split
  · exact replace_last_countPh x " -> " " ->> " (by decide)
  · split
    · exact replace_last_countPh x " #> " " #>> " (by decide)
    · split
      · rfl
      · split
        · rfl
        · rw [countPh_append]; rfl

/-- Any cast wrapper for a marker-free kind keeps the marker count. -/
theorem countPh_pgcast (ty x : String) (hty : countPh ty = 0) :
    countPh (parse_predicate_pgcast_by_type ty x) = countPh x := by
  unfold parse_predicate_pgcast_by_type
  split
  · rfl
  · split
    · unfold castBoolean
      rw [countPh_append, countPh_append]
      have h1 : countPh "(((" = 0 := rfl
      have h2 : countPh ")::text)::boolean IS TRUE)" = 0 := rfl
      omega
    · split
      · unfold castNumeric
        rw [countPh_append, countPh_append]
        have h1 : countPh "((" = 0 := rfl
        have h2 : countPh ")::text)::numeric" = 0 := rfl
        omega
      · split
        · exact countPh_castText x
        · rw [countPh_append, countPh_append, hty]
          have h1 : countPh "::" = 0 := rfl
          omega

/-- The operator name is a marker-free part of a marker-free token. -/
theorem countPh_operator_name (op : String) (h : countPh op = 0) :
    countPh (parse_operator_name op) = 0 := by
  unfold parse_operator_name
  rw [countPh_mk]
  exact countPh_of_sublist (List.takeWhile_sublist _) h

/-- The cast suffix of a marker-free token with a marker-free default is
marker-free. -/
theorem countPh_operator_type (op d : String) (hop : countPh op = 0)
    (hd : countPh d = 0) : countPh (parse_operator_type op d) = 0 := by
  unfold parse_operator_type
  split
  · split
    · rfl
    · exact hd
  · rw [countPh_mk]
    refine countPh_of_sublist (List.takeWhile_sublist _) ?_
    refine countPh_of_sublist (List.drop_sublist ..) ?_
    exact countPh_of_sublist (List.dropWhile_sublist _) hop

/-- Key resolution preserves the placeholder invariant: the resolved fragment
of a clean key carries exactly as many markers as parameters. -/
theorem ppk_wf (fuel : Nat) (T : ObjTypeT) (opts : PPKOpts) (key : String)
    (hT : countPh T.meta.table = 0) (hdk : countPh (get_predicate_datakey T) = 0)
    (ha : headChar key = some '$' → countPh (key.drop 1) = 0)
    (hb : headChar key ≠ some '$' → countPh key = 0) :
    wfP (parse_predicate_key fuel T opts key) := by
  unfold parse_predicate_key
  by_cases hp : headChar key ≠ some '$'
  · rw [if_pos hp]
    show countPh (parse_keyref_json (get_predicate_datakey T) key) = 0
    exact countPh_keyref_json _ _ hdk (hb hp)
  · rw [if_neg hp]
    have hp' : headChar key = some '$' := by
      by_contra hc
      exact hp hc
    have hk1 : countPh (key.drop 1) = 0 := ha hp'
    split
    · show countPh ("extract(epoch from " ++ key.drop 1 ++ ")*1000") = 0
      rw [countPh_append, countPh_append, hk1]
      rfl
    · split
      · show countPh ("get_documents(row_to_json(" ++ T.meta.table ++ ".*), $::json)") = 1
        rw [countPh_append, countPh_append, hT]
        rfl
      · exact hk1

end NoPgM

namespace NoPgM

/-- Every output of a successful `mapE` comes from some input element. -/
theorem mapE_mem {α β : Type} {f : α → Except String β} {l : List α} {ys : List β}
    (h : mapE f l = .ok ys) : ∀ y ∈ ys, ∃ x ∈ l, f x = .ok y := by
  induction l generalizing ys with
  | nil =>
      cases h
      intro y hy
      cases hy
  | cons a as ih =>
      simp only [mapE] at h
      cases hf : f a with
      | error e => rw [hf] at h; cases h
      | ok y0 =>
          rw [hf] at h
          simp only [exc_bind_ok] at h
          cases hrest : mapE f as with
          | error e => rw [hrest] at h; cases h
          | ok ys0 =>
              rw [hrest] at h
              simp only [exc_bind_ok] at h
              cases h
              intro y hy
              rcases List.mem_cons.mp hy with hh | hh
              · exact ⟨a, List.mem_cons_self .., hh ▸ hf⟩
              · obtain ⟨x, hx, hfx⟩ := ih hrest y hh
                exact ⟨x, List.mem_cons_of_mem _ hx, hfx⟩

/-- Cleanliness of a list is elementwise. -/
theorem wfListB_mem {l : List FSpec} (h : wfListB l = true) :
    ∀ x ∈ l, wfSpec x = true := by
  induction l with
  | nil => intro x hx; cases hx
  | cons a as ih =>
      rw [wfListB, Bool.and_eq_true] at h
      intro x hx
      rcases List.mem_cons.mp hx with hh | hh
      · exact hh ▸ h.1
      · exact ih h.2 x hh

/-- Key cleanliness of a map is entrywise. -/
theorem wfMapB_mem {l : List (String × JVal)} (h : wfMapB l = true) :
    ∀ kv ∈ l, (if headChar kv.1 = some '$' then dollarFree (kv.1.drop 1)
               else dollarFree kv.1) = true := by
  induction l with
  | nil => intro kv hkv; cases hkv
  | cons a as ih =>
      intro kv hkv
      rw [show wfMapB (a :: as)
          = ((if headChar a.1 = some '$' then dollarFree (a.1.drop 1)
              else dollarFree a.1) && wfMapB as) from by
            cases a; rfl, Bool.and_eq_true] at h
      rcases List.mem_cons.mp hkv with hh | hh
      · exact hh ▸ h.1
      · exact ih h.2 kv hh

/-- A true cleanliness flag means a zero marker count. -/
theorem dollarFree_countPh {s : String} (h : dollarFree s = true) : countPh s = 0 := by
  simpa [dollarFree, countPh] using h

/-- Every key the equality-map resolution produces is marker-free. -/
theorem parse_predicates_keys (T : ObjTypeT) (opts : List (String × JVal))
    (res : List (String × JVal)) (hdk : countPh (get_predicate_datakey T) = 0)
    (hwf : wfMapB opts = true) (h : parse_predicates T opts = .ok res) :
    ∀ kv ∈ res, countPh kv.1 = 0 := by
  intro kv hkv
  obtain ⟨x, hx, hfx⟩ := mapE_mem h kv hkv
  have hxwf := wfMapB_mem hwf x hx
  by_cases hdollar : headChar x.1 = some '$'
  · rw [if_pos hdollar] at hfx hxwf
    unfold parse_top_level_properties at hfx
    cases hfx
    exact dollarFree_countPh hxwf
  · rw [if_neg hdollar] at hfx hxwf
    have hxc : countPh x.1 = 0 := dollarFree_countPh hxwf
    unfold parse_meta_properties at hfx
    by_cases hvk : is_valid_key x.1 = true
    · rw [if_neg (by simp [hvk])] at hfx
      have hkeyref : countPh (parse_keyref_text (get_predicate_datakey T) x.1) = 0 :=
        countPh_keyref_text _ _ hdk hxc
      cases hv : x.2 with
      | bool b =>
          rw [hv] at hfx
          cases hfx
          show countPh ("((" ++ _ ++ ")::boolean IS TRUE)") = 0
          rw [countPh_append, countPh_append, hkeyref]
          rfl
      | num n =>
          rw [hv] at hfx
          cases hfx
          show countPh ("(" ++ _ ++ ")::numeric") = 0
          rw [countPh_append, countPh_append, hkeyref]
          rfl
      | nan =>
          rw [hv] at hfx
          cases hfx
          show countPh ("(" ++ _ ++ ")::numeric") = 0
          rw [countPh_append, countPh_append, hkeyref]
          rfl
      | null => rw [hv] at hfx; cases hfx; exact hkeyref
      | str s => rw [hv] at hfx; cases hfx; exact hkeyref
      | arr l => rw [hv] at hfx; cases hfx; exact hkeyref
      | obj l => rw [hv] at hfx; cases hfx; exact hkeyref
    · rw [if_pos (by simp [hvk])] at hfx
      cases hfx

end NoPgM

namespace NoPgM

/-- A successful key-token extraction only accepts string scalars. -/
theorem keytoken_inversion {x : FSpec} {k : String}
    (h : (match x with
          | .scalar (.str kk) => .ok kk
          | _ => .error "AssertUtils.isString" : Except String String) = .ok k) :
    x = .scalar (.str k) := by
  cases x with
  | scalar v =>
      cases v with
      | str s => cases h; rfl
      | null => cases h
      | nan => cases h
      | bool b => cases h
      | num n => cases h
      | arr l => cases h
      | obj l => cases h
  | undef => cases h
  | func s => cases h
  | map m => cases h
  | arr l => cases h

/-- The BIND rule preserves the placeholder invariant on clean operand
lists. -/
theorem pfp_wf (T : ObjTypeT) (o : List FSpec) (rt : String) (traits : Traits)
    (p : Predicate) (hT : countPh T.meta.table = 0)
    (hdk : countPh (get_predicate_datakey T) = 0)
    (hwf : ∀ x ∈ o, wfSpec x = true) (hrt : countPh rt = 0)
    (h : parse_function_predicate T o rt traits = .ok p) : wfP p := by
  unfold parse_function_predicate at h
  cases hidx : o.findIdx? isFuncSpec with
  | none => rw [hidx] at h; cases h
  | some i =>
      rw [hidx] at h
      simp only [exc_bind_ok] at h
      cases hks : mapE (fun sp =>
          (match sp with
           | .scalar (.str k) => .ok k
           | _ => .error "AssertUtils.isString" : Except String String)) (o.take i) with
      | error e => rw [hks] at h; cases h
      | ok ks =>
          rw [hks] at h
          simp only [exc_bind_ok] at h
          have hksdf : ∀ k ∈ ks, countPh k = 0 := by
            intro k hk
            obtain ⟨x, hxmem, hfx⟩ := mapE_mem hks k hk
            have hxo : x ∈ o := List.mem_of_mem_take hxmem
            have := hwf x hxo
            rw [keytoken_inversion hfx] at this
            rw [wfSpec] at this
            exact dollarFree_countPh this
          cases hpp : (ks.map (parse_predicate_key fuelD T { epoch := true, traits := traits })).map
              (·.getParams) with
          | nil => rw [hpp] at h; cases h
          | cons ps0 pss =>
              rw [hpp] at h
              simp only [exc_bind_ok] at h
              cases h
              show countPh (parse_predicate_pgcast_by_type
                  (if rt = "" then "boolean" else rt) _) = _
              have hrt2 : countPh (if rt = "" then "boolean" else rt) = 0 := by
                split
                · rfl
                · exact hrt
              rw [countPh_pgcast _ _ hrt2]
              rw [countPh_append, countPh_append]
              have hlit1 : countPh "nopg.call_func(array_to_json(ARRAY[" = 0 := rfl
              have hlit2 : countPh "]), $::json, $::json)" = 2 := rfl
              rw [hlit1, hlit2, countPh_joinSep _ _ (by rfl)]
              rw [List.length_append]
              have hfold : List.foldl (· ++ ·) ps0 pss = (ps0 :: pss).flatten :=
                foldl_append_flatten ps0 pss
              rw [hfold, ← hpp, List.length_flatten]
              have hmaps : ((ks.map (parse_predicate_key fuelD T { epoch := true, traits := traits })).map
                    (·.getString)).map countPh
                  = ((ks.map (parse_predicate_key fuelD T { epoch := true, traits := traits })).map
                    (·.getParams)).map List.length := by
                rw [List.map_map, List.map_map, List.map_map, List.map_map]
                apply List.map_congr_left
                intro k hk
                have hdf := hksdf k hk
                have hwfp := ppk_wf fuelD T { epoch := true, traits := traits } k hT hdk
                  (fun _ => countPh_drop k 1 hdf) (fun _ => hdf)
                exact hwfp
              rw [List.map_map] at hmaps ⊢
              rw [hmaps, List.map_map]
              simp

end NoPgM

namespace NoPgM

/-- The compiled-predicate invariant for the whole predicate-tree compiler:
every predicate a clean specification compiles to has as many placeholder
markers as parameters. -/
theorem rpp_wf_main (T : ObjTypeT) (def_op : String) (traits : Traits)
    (hT : countPh T.meta.table = 0) (hdk : countPh (get_predicate_datakey T) = 0)
    (hop : countPh def_op = 0) :
    ∀ s : FSpec, wfSpec s = true →
      ∀ p, recursive_parse_predicates T def_op traits s = .ok (some p) → wfP p := by
  intro s0
  refine recursive_parse_predicates.induct T def_op traits
    (fun s => wfSpec s = true →
      ∀ p, recursive_parse_predicates T def_op traits s = .ok (some p) → wfP p)
    (fun l => wfSpec (.arr l) = true →
      ∀ p, parse_array_predicate T def_op traits l = .ok (some p) → wfP p)
    (fun l => wfListB l = true →
      ∀ ps, rppList T def_op traits l = .ok ps → ∀ p, some p ∈ ps → wfP p)
    ?_ ?_ ?_ ?_ ?_ ?_ ?_ ?_ ?_ ?_ ?_ s0
  · intro _ p hp
    simp [recursive_parse_predicates] at hp
  · intro l ih hwf p hp
    exact ih hwf p hp
  · intro m hwf p hp
    rw [show recursive_parse_predicates T def_op traits (.map m)
        = (do
            let res ← parse_predicates T m
            let ps := res.map (fun kv => ({ text := kv.1 ++ " = $", params := [kv.2] } : Predicate))
            .ok (some (Predicate.join ps def_op))) from rfl] at hp
    cases hres : parse_predicates T m with
    | error e => rw [hres] at hp; cases hp
    | ok res =>
        rw [hres] at hp
        simp only [exc_bind_ok] at hp
        cases hp
        apply join_wf _ _ _ hop
        intro q hq
        rw [List.mem_map] at hq
        obtain ⟨kv, hkv, hkveq⟩ := hq
        have hkey := parse_predicates_keys T m res hdk (by simpa [wfSpec] using hwf) hres kv hkv
        rw [← hkveq]
        show countPh (kv.1 ++ " = $") = 1
        rw [countPh_append, hkey]
        rfl
  · intro s hwf p hp
    rw [show recursive_parse_predicates T def_op traits (.func s)
        = .ok (some (Predicate.join [] def_op)) from rfl] at hp
    cases hp
    simp [Predicate.join, wfP, countPh]
  · intro v hwf p hp
    rw [show recursive_parse_predicates T def_op traits (.scalar v)
        = .ok (some { text := jsToString v, params := [] }) from rfl] at hp
    cases hp
    show countPh (jsToString v) = 0
    exact dollarFree_countPh (by simpa [wfSpec] using hwf)
  · intro hwf p hp
    rw [show parse_array_predicate T def_op traits [] = .ok (some (Predicate.join [] "AND"))
        from rfl] at hp
    cases hp
    simp [Predicate.join, wfP, countPh]
  · intro x xs hisop opv hname hwf p hp
    rw [show wfSpec (.arr (x :: xs))
        = ((!(is_operator (specToString x)) || dollarFree (specToString x))
            && wfSpec x && wfListB xs) from rfl,
      Bool.and_eq_true, Bool.and_eq_true] at hwf
    have hopx : countPh (specToString x) = 0 := by
      rcases Bool.or_eq_true .. |>.mp hwf.1.1 with hh | hh
      · rw [hisop] at hh; cases hh
      · exact dollarFree_countPh hh
    rw [show parse_array_predicate T def_op traits (x :: xs)
        = (if is_operator (specToString x) then
            (if parse_operator_name (specToString x) = "BIND" then
              (parse_function_predicate T xs
                (parse_operator_type (specToString x) "") traits).map some
            else do
              let elems ← rppList T def_op traits xs
              .ok (some (Predicate.join (elems.filterMap id) (specToString x))))
          else do
            let pp ← recursive_parse_predicates T def_op traits x
            let ps ← rppList T def_op traits xs
            .ok (some (Predicate.join ((pp :: ps).filterMap id) "AND"))) from rfl] at hp
    rw [if_pos (by simpa using hisop), if_pos hname] at hp
    cases hpf : parse_function_predicate T xs (parse_operator_type (specToString x) "") traits with
    | error e => rw [hpf] at hp; cases hp
    | ok q =>
        rw [hpf] at hp
        simp only [exc_map_ok, Except.ok.injEq, Option.some.injEq] at hp
        subst hp
        exact pfp_wf T xs _ traits q hT hdk (wfListB_mem hwf.2)
          (countPh_operator_type _ "" hopx (by rfl)) hpf
  · intro x xs hisop opv hname ih hwf p hp
    rw [show wfSpec (.arr (x :: xs))
        = ((!(is_operator (specToString x)) || dollarFree (specToString x))
            && wfSpec x && wfListB xs) from rfl,
      Bool.and_eq_true, Bool.and_eq_true] at hwf
    have hopx : countPh (specToString x) = 0 := by
      rcases Bool.or_eq_true .. |>.mp hwf.1.1 with hh | hh
      · rw [hisop] at hh; cases hh
      · exact dollarFree_countPh hh
    rw [show parse_array_predicate T def_op traits (x :: xs)
        = (if is_operator (specToString x) then
            (if parse_operator_name (specToString x) = "BIND" then
              (parse_function_predicate T xs
                (parse_operator_type (specToString x) "") traits).map some
            else do
              let elems ← rppList T def_op traits xs
              .ok (some (Predicate.join (elems.filterMap id) (specToString x))))
          else do
            let pp ← recursive_parse_predicates T def_op traits x
            let ps ← rppList T def_op traits xs
            .ok (some (Predicate.join ((pp :: ps).filterMap id) "AND"))) from rfl] at hp
    rw [if_pos (by simpa using hisop), if_neg hname] at hp
    cases hel : rppList T def_op traits xs with
    | error e => rw [hel] at hp; cases hp
    | ok elems =>
        rw [hel] at hp
        simp only [exc_bind_ok, Except.ok.injEq, Option.some.injEq] at hp
        subst hp
        apply join_wf _ _ _ hopx
        intro q hq
        rw [List.mem_filterMap] at hq
        obtain ⟨b, hb, hbq⟩ := hq
        cases b with
        | none => cases hbq
        | some q' =>
            cases hbq
            exact ih hwf.2 elems hel q hb
  · intro x xs hisop ih1 ih3 hwf p hp
    rw [show wfSpec (.arr (x :: xs))
        = ((!(is_operator (specToString x)) || dollarFree (specToString x))
            && wfSpec x && wfListB xs) from rfl,
      Bool.and_eq_true, Bool.and_eq_true] at hwf
    rw [show parse_array_predicate T def_op traits (x :: xs)
        = (if is_operator (specToString x) then
            (if parse_operator_name (specToString x) = "BIND" then
              (parse_function_predicate T xs
                (parse_operator_type (specToString x) "") traits).map some
            else do
              let elems ← rppList T def_op traits xs
              .ok (some (Predicate.join (elems.filterMap id) (specToString x))))
          else do
            let pp ← recursive_parse_predicates T def_op traits x
            let ps ← rppList T def_op traits xs
            .ok (some (Predicate.join ((pp :: ps).filterMap id) "AND"))) from rfl] at hp
    rw [if_neg (by simpa using hisop)] at hp
    cases hpx : recursive_parse_predicates T def_op traits x with
    | error e => rw [hpx] at hp; cases hp
    | ok pp =>
        rw [hpx] at hp
        simp only [exc_bind_ok] at hp
        cases hel : rppList T def_op traits xs with
        | error e => rw [hel] at hp; cases hp
        | ok elems =>
            rw [hel] at hp
            simp only [exc_bind_ok, Except.ok.injEq, Option.some.injEq] at hp
            subst hp
            apply join_wf _ _ _ (by rfl)
            intro q hq
            rw [List.mem_filterMap] at hq
            obtain ⟨b, hb, hbq⟩ := hq
            cases b with
            | none => cases hbq
            | some q' =>
                cases hbq
                rcases List.mem_cons.mp hb with hh | hh
                · exact ih1 hwf.1.2 q (hh ▸ hpx)
                · exact ih3 hwf.2 elems hel q hh
  · intro hwf ps hps q hq
    rw [show rppList T def_op traits [] = .ok [] from rfl] at hps
    cases hps
    cases hq
  · intro x xs ih1 ih3 hwf ps hps q hq
    rw [show wfListB (x :: xs) = (wfSpec x && wfListB xs) from rfl,
      Bool.and_eq_true] at hwf
    rw [show rppList T def_op traits (x :: xs)
        = (do
            let pp ← recursive_parse_predicates T def_op traits x
            let pps ← rppList T def_op traits xs
            .ok (pp :: pps)) from rfl] at hps
    cases hpx : recursive_parse_predicates T def_op traits x with
    | error e => rw [hpx] at hps; cases hps
    | ok pp =>
        rw [hpx] at hps
        simp only [exc_bind_ok] at hps
        cases hel : rppList T def_op traits xs with
        | error e => rw [hel] at hps; cases hps
        | ok pps =>
            rw [hel] at hps
            simp only [exc_bind_ok] at hps
            cases hps
            rcases List.mem_cons.mp hq with hh | hh
            · exact ih1 hwf.1 q (hh ▸ hpx)
            · exact ih3 hwf.2 pps hel q hh

end NoPgM

namespace NoPgM

/-- Splitting at markers never yields an empty segment list. -/
theorem splitDollar_ne_nil (cs : List Char) : splitDollar cs ≠ [] := by
  cases cs with
  | nil => simp [splitDollar]
  | cons c cs =>
      simp only [splitDollar]
      rcases hsp : splitDollar cs with _ | ⟨s, rest⟩ <;> by_cases hc : c = '$' <;>
        simp [hsp, hc]

/-- N markers give N+1 segments. -/
theorem splitDollar_length (cs : List Char) :
    (splitDollar cs).length = cs.count '$' + 1 := by
  induction cs with
  | nil => rfl
  | cons c cs ih =>
      simp only [splitDollar]
      rcases hsp : splitDollar cs with _ | ⟨s, rest⟩
      · exact absurd hsp (splitDollar_ne_nil cs)
      · rw [hsp] at ih
        have hred : (match s :: rest with
              | [] => [[c]]
              | s :: rest => if c = '$' then [] :: s :: rest else (c :: s) :: rest)
            = if c = '$' then [] :: s :: rest else (c :: s) :: rest := rfl
        rw [hred]
        by_cases hc : c = '$'
        · subst hc
          simp only [if_pos rfl, List.length_cons, List.count_cons]
          simp at ih ⊢
          omega
        · rw [if_neg hc]
          simp only [List.length_cons, List.count_cons] at ih ⊢
          simp [hc] at ih ⊢
          omega

/-- No segment contains a marker. -/
theorem splitDollar_no_dollar (cs : List Char) :
    ∀ seg ∈ splitDollar cs, '$' ∉ seg := by
  induction cs with
  | nil =>
      intro seg hseg
      cases hseg with
      | head => simp
      | tail _ h => cases h
  | cons c cs ih =>
      simp only [splitDollar]
      rcases hsp : splitDollar cs with _ | ⟨s, rest⟩
      · exact absurd hsp (splitDollar_ne_nil cs)
      · rw [hsp] at ih
        have hred : (match s :: rest with
              | [] => [[c]]
              | s :: rest => if c = '$' then [] :: s :: rest else (c :: s) :: rest)
            = if c = '$' then [] :: s :: rest else (c :: s) :: rest := rfl
        rw [hred]
        by_cases hc : c = '$'
        · subst hc
          rw [if_pos rfl]
          intro seg hseg
          rcases List.mem_cons.mp hseg with hh | hh
          · subst hh; simp
          · exact ih seg hh
        · rw [if_neg hc]
          intro seg hseg
          rcases List.mem_cons.mp hseg with hh | hh
          · subst hh
            intro hmem
            rcases List.mem_cons.mp hmem with hh2 | hh2
            · exact hc hh2.symm
            · exact ih s (List.mem_cons_self ..) hh2
          · exact ih seg (List.mem_cons_of_mem _ hh)

/-- The renumbering pass is exactly the segmentwise rebuild with contiguous
numbers from `k` upward. -/
theorem numerifyAux_rebuild (cs : List Char) (k : Nat) :
    numerifyAux cs k = rebuildNumbered (splitDollar cs) k := by
  induction cs generalizing k with
  | nil => rfl
  | cons c cs ih =>
      simp only [numerifyAux, splitDollar]
      rcases hsp : splitDollar cs with _ | ⟨s, rest⟩
      · exact absurd hsp (splitDollar_ne_nil cs)
      · have hred : (match s :: rest with
              | [] => [[c]]
              | s :: rest => if c = '$' then [] :: s :: rest else (c :: s) :: rest)
            = if c = '$' then [] :: s :: rest else (c :: s) :: rest := rfl
        rw [hred]
        by_cases hc : c = '$'
        · subst hc
          rw [if_pos rfl, if_pos rfl]
          show '$' :: (renderNat k).data ++ numerifyAux cs (k+1)
              = rebuildNumbered ([] :: s :: rest) k
          rw [ih, hsp]
          rfl
        · rw [if_neg hc, if_neg hc]
          rw [ih, hsp]
          cases rest with
          | nil => rfl
          | cons t rr => rfl

/-- C1 (amended): for every predicate compiled from a placeholder-clean filter
specification (scalar leaves, map keys beyond their column marker, and
operator tokens free of the marker character) over a type whose table and data
key are marker-free, the fragment text contains exactly as many positional
placeholder markers as there are parameters; joining predicates with a
marker-free operator preserves that invariant; and on any such predicate the
final renumbering pass produces the segments of its text with contiguous
numbers 1..N left to right, N being the parameter count. -/
theorem c1_placeholder_invariant (T : ObjTypeT) (def_op : String) (traits : Traits)
    (hT : countPh T.meta.table = 0) (hdk : countPh (get_predicate_datakey T) = 0)
    (hop : countPh def_op = 0) :
    (∀ s p, wfSpec s = true →
      recursive_parse_predicates T def_op traits s = .ok (some p) →
      countPh p.text = p.params.length)
    ∧ (∀ (ps : List Predicate) (op : String), (∀ p ∈ ps, wfP p) → countPh op = 0 →
        wfP (Predicate.join ps op))
    ∧ (∀ p : Predicate, wfP p →
        (splitDollar p.text.data).length = p.params.length + 1
        ∧ numerifyPlaceHolders p.text = ⟨rebuildNumbered (splitDollar p.text.data) 1⟩
        ∧ ∀ seg ∈ splitDollar p.text.data, '$' ∉ seg) := by
  refine ⟨?_, join_wf, ?_⟩
  · intro s p hwf hp
    exact rpp_wf_main T def_op traits hT hdk hop s hwf p hp
  · intro p hwfp
    refine ⟨?_, ?_, splitDollar_no_dollar _⟩
    · rw [splitDollar_length]
      have : p.text.data.count '$' = countPh p.text := rfl
      rw [this, hwfp]
    · show String.mk (numerifyAux p.text.data 1) = _
      rw [numerifyAux_rebuild]

/-- C1 (counterexample): a scalar leaf containing the placeholder marker
compiles to a raw fragment with one marker and no parameter, breaking the
invariant as universally stated. -/
theorem c1_scalar_counterexample :
    recursive_parse_predicates NoPgDocument "AND" {} (.scalar (.str "$"))
      = .ok (some { text := "$", params := [] })
    ∧ countPh "$" ≠ ([] : List JVal).length :=
  ⟨rfl, by decide⟩

/-- C1 (witness): a two-entry AND specification compiles to two markers and
two parameters. -/
theorem c1_placeholder_invariant_witness :
    countPh "(id = $) AND (((content ->> 'age'::text))::numeric = $)"
      = ([JVal.str "X", JVal.num 10] : List JVal).length :=
  (c1_placeholder_invariant NoPgDocument "AND" {} (by decide) (by decide) (by decide)).1
    (.arr [.scalar (.str "AND"), .map [("$id", .str "X")], .map [("age", .num 10)]])
    { text := "(id = $) AND (((content ->> 'age'::text))::numeric = $)",
      params := [.str "X", .num 10] }
    (by decide) rfl

end NoPgM

namespace NoPgM

/-- A decimal digit character passes the digit test. -/
theorem dChar_isDigit (d : Nat) (h : d < 10) : isDigitC (dChar d) = true := by
  interval_cases d <;> decide

/-- `digitVal` inverts `dChar` below ten. -/
theorem digitVal_dChar (d : Nat) (h : d < 10) : digitVal (dChar d) = d := by
  interval_cases d <;> decide

/-- Digit characters sit in the ASCII digit code-point range. -/
theorem isDigitC_toNat (c : Char) (h : isDigitC c = true) :
    48 ≤ c.toNat ∧ c.toNat ≤ 57 := by
  simp [isDigitC] at h
  exact h

/-- Character inequality from distinct code points. -/
theorem ne_of_toNat_ne (c d : Char) (h : c.toNat ≠ d.toNat) : c ≠ d :=
  fun e => h (congrArg Char.toNat e)

/-- A digit character is not `parseInt` whitespace. -/
theorem isSpaceC_digit (c : Char) (h : isDigitC c = true) : isSpaceC c = false := by
  obtain ⟨h1, h2⟩ := isDigitC_toNat c h
  have hs : c ≠ ' ' := ne_of_toNat_ne c ' ' (by rw [show (' ').toNat = 32 from rfl]; omega)
  have ht : c ≠ '\t' := ne_of_toNat_ne c '\t' (by rw [show ('\t').toNat = 9 from rfl]; omega)
  have hn : c ≠ '\n' := ne_of_toNat_ne c '\n' (by rw [show ('\n').toNat = 10 from rfl]; omega)
  have hr : c ≠ '\r' := ne_of_toNat_ne c '\r' (by rw [show ('\r').toNat = 13 from rfl]; omega)
  simp [isSpaceC, hs, ht, hn, hr]

/-- A digit character is neither sign character. -/
theorem digit_not_sign (c : Char) (h : isDigitC c = true) : c ≠ '-' ∧ c ≠ '+' := by
  obtain ⟨h1, h2⟩ := isDigitC_toNat c h
  exact ⟨ne_of_toNat_ne c '-' (by rw [show ('-').toNat = 45 from rfl]; omega),
         ne_of_toNat_ne c '+' (by rw [show ('+').toNat = 43 from rfl]; omega)⟩

/-- `takeWhile` keeps a list all of whose elements satisfy the predicate. -/
theorem takeWhile_all (p : Char → Bool) (l : List Char) (h : ∀ c ∈ l, p c = true) :
    l.takeWhile p = l := by
  induction l with
  | nil => rfl
  | cons c cs ih =>
      rw [List.takeWhile_cons, if_pos (h c (by simp)),
          ih (fun x hx => h x (by simp [hx]))]

/-- `parseDigits` over a snoc: shift and add the last digit. -/
theorem parseDigits_append (xs : List Char) (c : Char) :
    parseDigits (xs ++ [c]) = 10 * parseDigits xs + digitVal c := by
  simp [parseDigits, List.foldl_append]

/-- `natCharsAux` with enough fuel renders a nonempty all-digit list whose
decimal value is the input. -/
theorem natCharsAux_spec (fuel : Nat) :
    ∀ n, n < fuel →
      natCharsAux fuel n ≠ [] ∧ (∀ c ∈ natCharsAux fuel n, isDigitC c = true) ∧
      parseDigits (natCharsAux fuel n) = n := by
  induction fuel with
  | zero => intro n h; omega
  | succ fuel ih =>
      intro n h
      by_cases h10 : n < 10
      · rw [show natCharsAux (fuel+1) n = [dChar n] from by simp [natCharsAux, h10]]
        refine ⟨by simp, ?_, ?_⟩
        · intro c hc
          simp at hc
          subst hc
          exact dChar_isDigit n h10
        · simp [parseDigits, digitVal_dChar n h10]
      · have hdiv : n / 10 < fuel := by omega
        rw [show natCharsAux (fuel+1) n = natCharsAux fuel (n / 10) ++ [dChar (n % 10)]
            from by simp [natCharsAux, h10]]
        obtain ⟨hne, hdig, hval⟩ := ih (n / 10) hdiv
        refine ⟨by simp, ?_, ?_⟩
        · intro c hc
          rcases List.mem_append.mp hc with hc | hc
          · exact hdig c hc
          · simp at hc
            subst hc
            exact dChar_isDigit _ (Nat.mod_lt _ (by omega))
        · rw [parseDigits_append, hval, digitVal_dChar _ (Nat.mod_lt _ (by omega))]
          omega

/-- `renderNat` is a nonempty all-digit string parsing back to its input. -/
theorem renderNat_spec (n : Nat) :
    (renderNat n).data ≠ [] ∧ (∀ c ∈ (renderNat n).data, isDigitC c = true) ∧
    parseDigits (renderNat n).data = n :=
  natCharsAux_spec (n+1) n (Nat.lt_succ_self n)

end NoPgM

namespace NoPgM

/-- `parseInt` inverts the JavaScript decimal rendering of an integer. -/
theorem parseIntChars_render (n : Int) : parseIntChars (renderInt n).data = .num n := by
  cases n with
  | ofNat m =>
      obtain ⟨hne, hdig, hval⟩ := renderNat_spec m
      show parseIntChars (renderNat m).data = _
      cases hd : (renderNat m).data with
      | nil => exact absurd hd hne
      | cons c rest =>
          rw [hd] at hdig hval
          have hc : isDigitC c = true := hdig c (by simp)
          have hsp : isSpaceC c = false := isSpaceC_digit c hc
          obtain ⟨hminus, hplus⟩ := digit_not_sign c hc
          unfold parseIntChars
          rw [List.dropWhile_cons, if_neg (by simp [hsp])]
          show (if c = '-' then numOrNan true (rest.takeWhile isDigitC)
                else if c = '+' then numOrNan false (rest.takeWhile isDigitC)
                else numOrNan false ((c :: rest).takeWhile isDigitC))
              = JVal.num (Int.ofNat m)
          rw [if_neg hminus, if_neg hplus, takeWhile_all isDigitC (c :: rest) hdig]
          simp [numOrNan, hval]
  | negSucc m =>
      obtain ⟨hne, hdig, hval⟩ := renderNat_spec (m+1)
      have hdata : (renderInt (Int.negSucc m)).data = '-' :: (renderNat (m+1)).data := rfl
      rw [hdata]
      unfold parseIntChars
      rw [List.dropWhile_cons, if_neg (by simp [isSpaceC])]
      show (if ('-' : Char) = '-' then numOrNan true ((renderNat (m+1)).data.takeWhile isDigitC)
            else if ('-' : Char) = '+' then numOrNan false ((renderNat (m+1)).data.takeWhile isDigitC)
            else numOrNan false (('-' :: (renderNat (m+1)).data).takeWhile isDigitC))
          = JVal.num (Int.negSucc m)
      rw [if_pos rfl, takeWhile_all isDigitC _ hdig]
      unfold numOrNan
      rw [if_neg (by simpa using hne)]
      rw [if_pos rfl, hval]
      congr 1

/-- `numOrNan` is NaN or a number. -/
theorem numOrNan_shape (b : Bool) (ds : List Char) :
    numOrNan b ds = .nan ∨ ∃ n : Int, numOrNan b ds = .num n := by
  unfold numOrNan
  split
  · left; rfl
  · right; exact ⟨_, rfl⟩

/-- `parseIntChars` returns NaN or a number. -/
theorem parseIntChars_shape (cs : List Char) :
    parseIntChars cs = .nan ∨ ∃ n : Int, parseIntChars cs = .num n := by
  unfold parseIntChars
  cases cs.dropWhile isSpaceC with
  | nil => left; rfl
  | cons c rest =>
      show (if c = '-' then numOrNan true (rest.takeWhile isDigitC)
            else if c = '+' then numOrNan false (rest.takeWhile isDigitC)
            else numOrNan false ((c :: rest).takeWhile isDigitC)) = .nan ∨
           ∃ n : Int,
             (if c = '-' then numOrNan true (rest.takeWhile isDigitC)
              else if c = '+' then numOrNan false (rest.takeWhile isDigitC)
              else numOrNan false ((c :: rest).takeWhile isDigitC)) = .num n
      by_cases h1 : c = '-'
      · simp only [if_pos h1]
        exact numOrNan_shape _ _
      · simp only [if_neg h1]
        by_cases h2 : c = '+'
        · simp only [if_pos h2]
          exact numOrNan_shape _ _
        · simp only [if_neg h2]
          exact numOrNan_shape _ _

end NoPgM

namespace NoPgM

/-- The decimal rendering of an integer is nonempty. -/
theorem renderInt_ne_nil (n : Int) : (renderInt n).data ≠ [] := by
  cases n with
  | ofNat m => exact (renderNat_spec m).1
  | negSucc m =>
      show ('-' :: (renderNat (m+1)).data) ≠ []
      simp

/-- A string with a nonempty character list is JavaScript-truthy. -/
theorem jvTruthy_str_of_ne (s : String) (h : s.data ≠ []) : jvTruthy (.str s) = true := by
  simp only [jvTruthy, bne_iff_ne, ne_eq]
  intro he
  exact h (by rw [he])

/-- Lowercasing fixes a digit character. -/
theorem jsLowerChar_digit (c : Char) (h : isDigitC c = true) : jsLowerChar c = c := by
  obtain ⟨h1, h2⟩ := isDigitC_toNat c h
  unfold jsLowerChar
  rw [if_neg]
  simp only [Bool.and_eq_true, decide_eq_true_eq, not_and]
  omega

/-- The lowercased decimal rendering of an integer is never the string
`all` (its first character is a digit or the minus sign). -/
theorem jsToLower_renderInt_ne_all (n : Int) : jsToLower (renderInt n) ≠ "all" := by
  intro he
  have hdata : ((renderInt n).data.map jsLowerChar) = ['a', 'l', 'l'] :=
    congrArg String.data he
  cases n with
  | ofNat m =>
      obtain ⟨hne, hdig, _⟩ := renderNat_spec m
      cases hd : (renderNat m).data with
      | nil => exact absurd hd hne
      | cons c rest =>
          rw [hd] at hdig
          have hda : (renderInt (Int.ofNat m)).data = c :: rest := hd
          rw [hda, List.map_cons] at hdata
          have hc : jsLowerChar c = 'a' := (List.cons.injEq _ _ _ _ ▸ hdata).1
          rw [jsLowerChar_digit c (hdig c (by simp))] at hc
          obtain ⟨h1, h2⟩ := isDigitC_toNat c (hdig c (by simp))
          have : c.toNat = 97 := by rw [hc]; rfl
          omega
  | negSucc m =>
      have hda : (renderInt (Int.negSucc m)).data = '-' :: (renderNat (m+1)).data := rfl
      rw [hda, List.map_cons] at hdata
      have hc : jsLowerChar '-' = 'a' := (List.cons.injEq _ _ _ _ ▸ hdata).1
      exact absurd hc (by decide)

end NoPgM

namespace NoPgM

/-- The limit normalization is idempotent. -/
theorem limitNorm_idem (v : JVal) : limitNorm (limitNorm v) = limitNorm v := by
  by_cases ht : jvTruthy v = true
  · have h0 : limitNorm v
        = .str (if jsToLower (jsToString v) = "all" then "ALL"
                else jsToString (parseIntJs v)) := by
      unfold limitNorm
      rw [if_pos ht]
    rw [h0]
    by_cases hall : jsToLower (jsToString v) = "all"
    · rw [if_pos hall]
      rfl
    · rw [if_neg hall]
      rw [show parseIntJs v = parseIntChars (jsToString v).data from rfl]
      rcases parseIntChars_shape (jsToString v).data with hs | ⟨k, hs⟩
      · rw [hs]
        rfl
      · rw [hs]
        show limitNorm (.str (renderInt k)) = .str (renderInt k)
        unfold limitNorm
        rw [if_pos (jvTruthy_str_of_ne _ (renderInt_ne_nil k))]
        rw [if_neg (show ¬ (jsToLower (jsToString (.str (renderInt k))) = "all")
              from jsToLower_renderInt_ne_all k)]
        show JVal.str (jsToString (parseIntChars (renderInt k).data)) = _
        rw [parseIntChars_render k]
        rfl
  · have h0 : limitNorm v = v := by
      unfold limitNorm
      rw [if_neg ht]
    rw [h0, h0]

/-- The offset normalization is idempotent. -/
theorem offsetNorm_idem (v : JVal) : offsetNorm (offsetNorm v) = offsetNorm v := by
  by_cases ht : jvTruthy v = true
  · have h0 : offsetNorm v = parseIntJs v := by
      unfold offsetNorm
      rw [if_pos ht]
    rw [h0]
    rw [show parseIntJs v = parseIntChars (jsToString v).data from rfl]
    rcases parseIntChars_shape (jsToString v).data with hs | ⟨k, hs⟩
    · rw [hs]
      rfl
    · rw [hs]
      unfold offsetNorm
      by_cases hk : jvTruthy (.num k) = true
      · rw [if_pos hk]
        show parseIntChars (renderInt k).data = _
        rw [parseIntChars_render k]
      · rw [if_neg hk]
  · have h0 : offsetNorm v = v := by
      unfold offsetNorm
      rw [if_neg ht]
    rw [h0, h0]

end NoPgM

namespace NoPgM

/-- `v === true` of a boolean literal is the boolean itself. -/
theorem jvIsTrue_bool (b : Bool) : jvIsTrue (.bool b) = b := by
  cases b <;> rfl

/-- Appending the `$documents` field is idempotent. -/
theorem docFields_idem (c : Bool) (l : List String) :
    docFields c (docFields c l) = docFields c l := by
  by_cases h : (c && !(l.contains "$documents")) = true
  · have h1 : docFields c l = l ++ ["$documents"] := by
      simp only [docFields]
      rw [if_pos h]
    rw [h1]
    have h2 : ¬((c && !((l ++ ["$documents"]).contains "$documents")) = true) := by
      simp
    simp only [docFields]
    rw [if_neg h2]
  · have h1 : docFields c l = l := by
      simp only [docFields]
      rw [if_neg h]
    rw [h1, h1]

/-- Rewrapping the normalized group trait is stable. -/
theorem groupStep_wrap (g : Option StrOrList) :
    groupStep ((groupStep g).map StrOrList.many) = groupStep g := by
  cases g with
  | none => rfl
  | some x => cases x <;> rfl

/-- The normalized traits carry the resolved type-awareness boolean. -/
theorem pst_typeAwareness (d : Bool) (t : Traits) :
    (parse_search_traits d t).typeAwareness = some (.bool (taStep d t.typeAwareness)) := by
  unfold parse_search_traits
  cases t.count <;> rfl

/-- Trait normalization is idempotent. -/
theorem pst_idem (d : Bool) (t : Traits) :
    parse_search_traits d (parse_search_traits d t) = parse_search_traits d t := by
  unfold parse_search_traits
  cases t.count with
  | none =>
      cases t.limit with
      | none =>
          cases t.offset with
          | none =>
              cases t.prepareOnly <;>
                simp [fieldsStep, orderStep, groupStep_wrap, docFields_idem,
                      limitNorm_idem, offsetNorm_idem, jvIsTrue_bool, taStep]
          | some w =>
              cases t.prepareOnly <;>
                simp [fieldsStep, orderStep, groupStep_wrap, docFields_idem,
                      limitNorm_idem, offsetNorm_idem, jvIsTrue_bool, taStep]
      | some v =>
          cases t.offset with
          | none =>
              cases t.prepareOnly <;>
                simp [fieldsStep, orderStep, groupStep_wrap, docFields_idem,
                      limitNorm_idem, offsetNorm_idem, jvIsTrue_bool, taStep]
          | some w =>
              cases t.prepareOnly <;>
                simp [fieldsStep, orderStep, groupStep_wrap, docFields_idem,
                      limitNorm_idem, offsetNorm_idem, jvIsTrue_bool, taStep]
  | some c =>
      cases t.limit with
      | none =>
          cases t.offset with
          | none =>
              cases t.prepareOnly <;>
                simp [fieldsStep, orderStep, groupStep_wrap, docFields_idem,
                      limitNorm_idem, offsetNorm_idem, jvIsTrue_bool, taStep]
          | some w =>
              cases t.prepareOnly <;>
                simp [fieldsStep, orderStep, groupStep_wrap, docFields_idem,
                      limitNorm_idem, offsetNorm_idem, jvIsTrue_bool, taStep]
      | some v =>
          cases t.offset with
          | none =>
              cases t.prepareOnly <;>
                simp [fieldsStep, orderStep, groupStep_wrap, docFields_idem,
                      limitNorm_idem, offsetNorm_idem, jvIsTrue_bool, taStep]
          | some w =>
              cases t.prepareOnly <;>
                simp [fieldsStep, orderStep, groupStep_wrap, docFields_idem,
                      limitNorm_idem, offsetNorm_idem, jvIsTrue_bool, taStep]

end NoPgM

namespace NoPgM

/-- Success of an `Except` bind decomposes into successes of both stages. -/
theorem exc_bind_ok_iff (a : Except String α) (f : α → Except String β) (c : β) :
    (a >>= f) = .ok c ↔ ∃ b, a = .ok b ∧ f b = .ok c := by
  cases a with
  | error e => simp
  | ok b => simp

set_option maxRecDepth 4096 in
/-- The select pipeline only reads its traits argument through the
normalization, so arguments normalizing equally prepare equally. -/
theorem psq_congr_pst (T : ObjTypeT) (dt : Option TypeDisc) (dto : Option TypeEntity)
    (so : FSpec) (a b : Traits) (d : Bool)
    (h : parse_search_traits d a = parse_search_traits d b) :
    prepare_select_query T dt dto so a d = prepare_select_query T dt dto so b d := by
  unfold prepare_select_query
  rw [h]

end NoPgM

namespace NoPgM

/-- Under an injection-free configuration the injection guard is off. -/
theorem psqInject_false (dt : Option TypeDisc) (dto : Option TypeEntity)
    (d : Bool) (tr0 : Traits) (hinj : docInjectionFree d dt dto tr0) :
    psqInject dt dto (parse_search_traits d tr0) = false := by
  unfold psqInject
  rcases hinj with hfalse | ⟨hd1, hd2⟩
  · rw [pst_typeAwareness]
    simp [hfalse]
  · cases dt with
    | none =>
        rw [show psqTypeObj none dto (parse_search_traits d tr0) = none from rfl]
        simp
    | some td =>
        cases td with
        | ent te =>
            have hd1a : te.documents = none := hd1
            rw [show psqTypeObj (some (.ent te)) dto (parse_search_traits d tr0)
                  = some te from rfl]
            simp [hd1a]
        | listD l =>
            rw [show psqTypeObj (some (.listD l)) dto (parse_search_traits d tr0)
                  = none from rfl]
            simp
        | name s =>
            cases dto with
            | none =>
                simp only [psqTypeObj]
                split <;> simp
            | some te2 =>
                have hd2a : te2.documents = none := hd2
                simp only [psqTypeObj]
                apply Bool.and_eq_false_iff.mpr
                right
                split
                · next te heq =>
                    split at heq
                    · cases heq
                      simp [hd2a]
                    · exact absurd heq (by simp)
                · rfl

/-- Under an injection-free configuration the `$documents` mutation is the
identity on the normalized traits. -/
theorem psqTraits_inj_free (dt : Option TypeDisc) (dto : Option TypeEntity)
    (d : Bool) (tr0 : Traits) (hinj : docInjectionFree d dt dto tr0) :
    psqTraits dt dto (parse_search_traits d tr0) = parse_search_traits d tr0 := by
  unfold psqTraits
  rw [psqInject_false dt dto d tr0 hinj]
  simp

/-- Under an injection-free configuration, a successful preparation returns
exactly the normalized traits (the in-place mutation is a no-op). -/
theorem psq_ok_traits (T : ObjTypeT) (dt : Option TypeDisc) (dto : Option TypeEntity)
    (so : FSpec) (tr0 : Traits) (d : Bool) (q : QueryM) (t2 : Traits)
    (hinj : docInjectionFree d dt dto tr0)
    (h : prepare_select_query T dt dto so tr0 d = .ok (q, t2)) :
    t2 = parse_search_traits d tr0 := by
  unfold prepare_select_query at h
  split at h
  · exact absurd h (by simp)
  · cases hc : prepare_select_core T dt dto so (parse_search_traits d tr0) with
    | error e =>
        rw [hc] at h
        exact absurd h (by simp)
    | ok Q =>
        rw [hc] at h
        simp only [exc_map_ok, Except.ok.injEq, Prod.mk.injEq] at h
        rw [← h.2]
        exact psqTraits_inj_free dt dto d tr0 hinj

end NoPgM

namespace NoPgM

/-- C9: compiling the same specification twice against the same traits object
yields byte-identical statement text and an identical parameter list, provided
the type-awareness `$documents` injection does not mutate the traits (type
awareness off, or no reachable type entity carries a documents relation list).
The counterexample shows the universal claim fails without that proviso: the
injection is shared mutable state that the second run observes. -/
theorem c9_compile_deterministic (T : ObjTypeT) (dt : Option TypeDisc)
    (dto : Option TypeEntity) (so : FSpec) (tr0 : Traits) (d : Bool)
    (s1 s2 : String × List JVal)
    (hinj : docInjectionFree d dt dto tr0)
    (h : runTwice T dt dto so tr0 d = .ok (s1, s2)) : s1 = s2 := by
  rcases hp : prepare_select_query T dt dto so tr0 d with e | p
  · simp only [runTwice, compileRun, hp, exc_bind_err] at h
    exact absurd h (by simp)
  · obtain ⟨q, t2⟩ := p
    have ht2 : t2 = parse_search_traits d tr0 :=
      psq_ok_traits T dt dto so tr0 d q t2 hinj hp
    have hp2 : prepare_select_query T dt dto so t2 d = .ok (q, t2) := by
      rw [ht2, psq_congr_pst T dt dto so (parse_search_traits d tr0) tr0 d (pst_idem d tr0)]
      rw [hp, ht2]
    simp only [runTwice, compileRun, hp, hp2, exc_bind_ok] at h
    simp only [Except.ok.injEq, Prod.mk.injEq] at h
    obtain ⟨h1, h2⟩ := h
    rw [← h1, ← h2]

end NoPgM

namespace NoPgM

set_option maxRecDepth 16384 in
set_option maxHeartbeats 3200000 in
/-- C9 (counterexample): under type awareness with a type whose `documents`
relation list is nonempty, two successive compilations of the same
specification against the same traits object succeed with byte-identical text
but different parameter lists: the in-place `$documents` injection grows the
shared traits object, and the second run serializes the duplicated relation
list into its JSON parameter blob. -/
theorem c9_mutating_traits_counterexample :
    (match runTwice NoPgDocument (some (.name "Foo"))
        (some { id := "tid", schemaProps := none, documents := some ["other"] })
        .undef { typeAwareness := some (.bool true) } false with
     | .ok (a, b) => a.1 = b.1 ∧ a.2.map JVal.stringify ≠ b.2.map JVal.stringify
     | .error _ => False) :=
  ⟨rfl, by decide⟩

set_option maxRecDepth 16384 in
set_option maxHeartbeats 3200000 in
/-- C9 (witness): an injection-free concrete search compiles twice to the same
statement and parameters. -/
theorem c9_compile_deterministic_witness :
    (("SELECT * FROM documents WHERE (content ->> 'name'::text) = $1 ORDER BY extract(epoch from created)*1000",
        [JVal.str "hello"]) : String × List JVal)
      = ("SELECT * FROM documents WHERE (content ->> 'name'::text) = $1 ORDER BY extract(epoch from created)*1000",
        [JVal.str "hello"]) :=
  c9_compile_deterministic NoPgDocument none none (.map [("name", .str "hello")]) {} false
    ("SELECT * FROM documents WHERE (content ->> 'name'::text) = $1 ORDER BY extract(epoch from created)*1000",
      [JVal.str "hello"])
    ("SELECT * FROM documents WHERE (content ->> 'name'::text) = $1 ORDER BY extract(epoch from created)*1000",
      [JVal.str "hello"])
    (Or.inl rfl) rfl

end NoPgM
